import Mathlib

/-!
# XvaEngineCG: the computation-graph exposure engine

A shallow embedding of the constructor of `XvaEngineCG`
(`OREAnalytics/orea/engine/xvaenginecg.cpp`) and of the collaborators it drives.
The constructor is a pipeline: the trade loop extends the shared computation graph,
the value vector is filled with random variates, constants and model parameters, the
retention bitmap is built from the trades' output nodes, and the graph is evaluated.

Conventions of the embedding:
* a C++ exception (`QL_REQUIRE`, a failed lookup) and an out-of-range subscript of a
  `std::vector` (undefined behaviour) are results `Except.error` of type `Fault`;
* `for (Size i = 0; i < n; ++i)` is `forLoop n`, a range-based `for` is `List.foldlM`;
* `std::map<std::string, T>` is a list of pairs kept in ascending key order;
* `QuantLib::Real` is a type parameter `R`.
-/

namespace XvaEngineCG

/-! ## Definitions -/

/-- Ways in which a stage of the constructor does not complete. -/
inductive Fault where
  /-- an out-of-range subscript of a `std::vector` -/
  | undefinedBehaviour
  /-- a failed `QL_REQUIRE` -/
  | requireFailed
  /-- a failed lookup of a variable of the graph -/
  | notFound
  /-- the evaluator read a node that holds no value -/
  | unboundInput (node : Nat)
  /-- the operator id of a node is not in the operator table -/
  | unknownOperator (node : Nat)
  /-- a fault of graph construction: index-ordering violation or duplicate label -/
  | graphConstruction
  deriving DecidableEq

/-- The loop `for (Size i = 0; i < n; ++i) body(i)` over a state `σ`:
iterations `0, …, n - 1` in this order, stopping at the first fault. -/
def forLoop {σ : Type} (n : Nat) (body : Nat → σ → Except Fault σ) (s : σ) : Except Fault σ :=
  match n with
  | 0 => .ok s
  | k + 1 => (forLoop k body s).bind (body k)

/-- The assignment `v[i] = x` on a `std::vector`; out of range it is undefined behaviour. -/
def assignAt {α : Type} (v : List α) (i : Nat) (x : α) : Except Fault (List α) :=
  if i < v.length then .ok (v.set i x) else .error .undefinedBehaviour

/-- Stage 8, lines 240-244: `std::vector<bool> keepNodes(g->size(), false)` followed by
`keepNodes[n] = true` for every node `n` of every entry of `amcNpvNodes`. -/
def buildKeepNodes (gSize : Nat) (amcNpvNodes : List (String × List Nat)) :
    Except Fault (List Bool) :=
  amcNpvNodes.foldlM
    (fun keepNodes entry => entry.2.foldlM (fun keepNodes n => assignAt keepNodes n true) keepNodes)
    (List.replicate gSize false)

/-- Lexicographic comparison of two character sequences, the order of `std::string`. -/
def charsLess : List Char → List Char → Bool
  | _, [] => false
  | [], _ :: _ => true
  | a :: as, b :: bs => if a < b then true else if b < a then false else charsLess as bs

/-- The comparison `a < b` of two `std::string`s, the key order of a `std::map`. -/
def stringLess (a b : String) : Bool := charsLess a.data b.data

/-- The assignment `m[k] = v` on a `std::map<std::string, T>`: the entry of an existing key is
overwritten, a new key is inserted at its place in ascending key order. -/
def mapAssign {β : Type} : List (String × β) → String → β → List (String × β)
  | [], k, v => [(k, v)]
  | (k', v') :: rest, k, v =>
    if stringLess k k' then (k, v) :: (k', v') :: rest
    else if stringLess k' k then (k', v') :: mapAssign rest k v
    else (k, v) :: rest

/-- The key set of a `std::map`, in iteration order. -/
def mapKeys {β : Type} (m : List (String × β)) : List String := m.map Prod.fst

/-- Modelled from the spec: the Operand of §2 (`RandomVariable`, declared in
`qle/math/randomvariable.hpp`, which is not among the sources): a fixed-length array of scalars,
one slot per simulation path. -/
structure RandomVariable (R : Type) where
  data : List R
  deriving DecidableEq

namespace RandomVariable

/-- Modelled from the spec: `RandomVariable(n, value)`, the operand with `n` slots all equal to
`value` (a scalar broadcast across all paths). -/
def ofValue {R : Type} (n : Nat) (value : R) : RandomVariable R := { data := List.replicate n value }

/-- Modelled from the spec: the number of slots of an operand. -/
def size {R : Type} (x : RandomVariable R) : Nat := x.data.length

/-- Modelled from the spec: `set(i, v)`, which writes slot `i` of an operand and requires
`i` to be a slot of it. -/
def set {R : Type} (x : RandomVariable R) (i : Nat) (v : R) : Except Fault (RandomVariable R) :=
  if i < x.size then .ok { data := x.data.set i v } else .error .requireFailed

end RandomVariable

/-- Slot `p` of `values[node]`, when there is one. -/
def slotAt {R : Type} (values : List (RandomVariable R)) (node p : Nat) : Option R :=
  match values[node]? with
  | some x => x.data[p]?
  | none => none

/-- Modelled from the spec: the Path Generator of §4.3 (`MultiPathVariateGenerator`, declared in
`qle/methods/multipathvariategenerator.hpp`, which is not among the sources). The sequence of
draws is fixed when the generator is created; the generator is stateful only in its draw cursor.
Draw `p` is the block `value[j][k]`, time step `j` and factor `k`. -/
structure MultiPathVariateGenerator (R : Type) where
  draws : Nat → List (List R)
  cursor : Nat

/-- Modelled from the spec: `next()`, the draw under the cursor and the generator with the
cursor advanced by one. -/
def MultiPathVariateGenerator.next {R : Type} (gen : MultiPathVariateGenerator R) :
    List (List R) × MultiPathVariateGenerator R :=
  (gen.draws gen.cursor, { gen with cursor := gen.cursor + 1 })

/-- The arguments `scenarioGeneratorData_` supplies to `makeMultiPathVariateGenerator`:
sequence type, seed, ordering and direction integers. -/
structure GeneratorData (S O D : Type) where
  sequenceType : S
  seed : Nat
  ordering : O
  directionIntegers : D

/-- The factory `makeMultiPathVariateGenerator(sequenceType, dimension, timeSteps, seed,
ordering, directionIntegers)`, a parameter of the embedding. -/
abbrev GeneratorFactory (S O D R : Type) : Type :=
  S → Nat → Nat → Nat → O → D → MultiPathVariateGenerator R

/-- The node `rv[k][j]` of factor `k` and time step `j`, when both subscripts are in range. -/
def variateNode (rv : List (List Nat)) (k j : Nat) : Option Nat :=
  match rv[k]? with
  | some row => row[j]?
  | none => none

/-- The entry `value[j][k]` of a draw, when both subscripts are in range. -/
def drawValue {R : Type} (value : List (List R)) (j k : Nat) : Option R :=
  match value[j]? with
  | some row => row[k]?
  | none => none

/-- Line 210: `values[rv[k][j]].set(path, p.value[j][k])`. -/
def setVariate {R : Type} (rv : List (List Nat)) (value : List (List R)) (path j k : Nat)
    (values : List (RandomVariable R)) : Except Fault (List (RandomVariable R)) :=
  match variateNode rv k j with
  | none => .error .undefinedBehaviour
  | some node =>
    match values[node]? with
    | none => .error .undefinedBehaviour
    | some x =>
      match drawValue value j k with
      | none => .error .undefinedBehaviour
      | some v =>
        match x.set path v with
        | .error e => .error e
        | .ok x' => assignAt values node x'

/-- Lines 208-212: the loops over the time steps `j` and the factors `k` for one path. -/
def setPath {R : Type} (rv : List (List Nat)) (steps : Nat) (value : List (List R)) (path : Nat)
    (values : List (RandomVariable R)) : Except Fault (List (RandomVariable R)) :=
  forLoop steps
    (fun j vals => forLoop rv.length (fun k vals => setVariate rv value path j k vals) vals)
    values

/-- The shape of the value vector: one operand per node of the graph, each with one slot per
path. -/
def ValuesShape {R : Type} (gSize modelSize : Nat) (values : List (RandomVariable R)) : Prop :=
  values.length = gSize ∧ ∀ x ∈ values, x.size = modelSize

/-- The write for path `p`, time step `j` and factor `k` comes before the iteration
`(np, nj, nk)` in the order of the three loops of stage 6. -/
def writtenBefore (p j k np nj nk : Nat) : Prop :=
  p < np ∨ (p = np ∧ (j < nj ∨ (j = nj ∧ k < nk)))

/-- The state of `values` when stage 6 reaches the iteration `(np, nj, nk)`: the shape is kept
and every earlier write is in place, slot `p` of `values[rv[k][j]]` holding `value[j][k]` of
draw `p`. -/
def VariatesWritten {R : Type} (rv : List (List Nat)) (draws : Nat → List (List R))
    (steps modelSize gSize : Nat) (np nj nk : Nat) (values : List (RandomVariable R)) : Prop :=
  ValuesShape gSize modelSize values ∧
  ∀ p j k, p < modelSize → j < steps → k < rv.length → writtenBefore p j k np nj nk →
    ∃ node v, variateNode rv k j = some node ∧ drawValue (draws p) j k = some v ∧
      slotAt values node p = some v

/-- The locals of stage 6: the value vector and the path generator. -/
structure VariateState (R : Type) where
  values : List (RandomVariable R)
  gen : MultiPathVariateGenerator R

/-- Lines 206-213, the body of the loop over the paths: one draw `gen->next()`, written to the
slot `path` of the random-variate nodes. -/
def pathStep {R : Type} (rv : List (List Nat)) (steps : Nat) (path : Nat) (s : VariateState R) :
    Except Fault (VariateState R) :=
  match setPath rv steps s.gen.next.1 path s.values with
  | .error e => .error e
  | .ok vals => .ok { values := vals, gen := s.gen.next.2 }

/-- Stage 6, lines 199-215: `values` starts with `g->size()` operands of `model_->size()` slots
equal to `0.0`; when `rv = model_->randomVariates()` is not empty, one generator is made for
`rv.size()` factors and `rv.front().size()` time steps and `model_->size()` draws are written to
the random-variate nodes. The result is `values` and the generator, if one was made. -/
def populateRandomVariates {S O D R : Type} [Zero R] (makeMultiPathVariateGenerator :
    GeneratorFactory S O D R) (data : GeneratorData S O D) (rv : List (List Nat))
    (modelSize gSize : Nat) :
    Except Fault (List (RandomVariable R) × Option (MultiPathVariateGenerator R)) :=
  let values := List.replicate gSize (RandomVariable.ofValue modelSize (0 : R))
  match rv with
  | [] => .ok (values, none)
  | front :: _ =>
    let gen := makeMultiPathVariateGenerator data.sequenceType rv.length front.length data.seed
      data.ordering data.directionIntegers
    match forLoop modelSize (pathStep rv front.length) { values := values, gen := gen } with
    | .error e => .error e
    | .ok s => .ok (s.values, some s.gen)

/-- Stage 7, lines 223-230: every constant `c` of the graph is bound by
`values[c.second] = RandomVariable(model_->size(), c.first)`, then every model parameter `p` by
`values[p.first] = RandomVariable(model_->size(), p.second)`. -/
def populateConstantsAndParameters {R : Type} (constants : List (R × Nat))
    (modelParameters : List (Nat × R)) (modelSize : Nat) (values : List (RandomVariable R)) :
    Except Fault (List (RandomVariable R)) :=
  match constants.foldlM
      (fun vals c => assignAt vals c.2 (RandomVariable.ofValue modelSize c.1)) values with
  | .error e => .error e
  | .ok vals =>
    modelParameters.foldlM
      (fun vals p => assignAt vals p.1 (RandomVariable.ofValue modelSize p.2)) vals

/-- The part of `ComputationGraph` the constructor uses. The class is declared in
`qle/ad/computationgraph.hpp`, which is not among the sources, so its operations are taken as
parameters: `size()`, `setPrefix(p)`, the lookup `variable(name)` (here `graphVariable`, since
`variable` is a keyword of Lean; it throws when there is no such variable) and `constants()`, a
`std::map<double, std::size_t>` from value to node index. -/
structure GraphApi (G R : Type) where
  size : G → Nat
  setPrefix : G → String → G
  graphVariable : G → String → Except Fault Nat
  constants : G → List (R × Nat)

/-- Modelled from the spec: a Node of §3 (the node type of `qle/ad/computationgraph.hpp`, which
is not among the sources): an operator kind, the ordered list of its input node indices and an
optional label. A node without inputs is an input node: its value is bound, not computed. -/
structure Node where
  operatorKind : Nat
  inputs : List Nat
  label : Option String
  deriving DecidableEq

/-- Modelled from the spec: the Computation Graph of §3 and §4.1 (`qle/ad/computationgraph.hpp`
is not among the sources): a single array of nodes addressed by index, the constant pool
(literal value to node index) and the label prefix in force. -/
structure ComputationGraph (R : Type) where
  nodes : List Node
  constantPool : List (R × Nat)
  labelPrefix : String

namespace ComputationGraph

/-- Modelled from the spec: the graph without nodes. -/
def empty {R : Type} : ComputationGraph R :=
  { nodes := [], constantPool := [], labelPrefix := "" }

/-- Modelled from the spec: `size() -> int`, the number of nodes. -/
def size {R : Type} (g : ComputationGraph R) : Nat := g.nodes.length

/-- Modelled from the spec: `setPrefix(string)`, which affects subsequently created labels
only. -/
def setPrefix {R : Type} (g : ComputationGraph R) (p : String) : ComputationGraph R :=
  { g with labelPrefix := p }

/-- Modelled from the spec: `nodeIndex(label) -> nodeIndex`, the lookup by label, which fails
with `NotFound` if the label is absent. -/
def nodeIndex {R : Type} (g : ComputationGraph R) (label : String) : Except Fault Nat :=
  match g.nodes.findIdx? (fun n => n.label == some label) with
  | some i => .ok i
  | none => .error .notFound

/-- Modelled from the spec: `append(operatorKind, inputIndices[], label?) -> nodeIndex`. Every
input index must be strictly less than the index about to be assigned, and a label must be new
(`GraphConstructionError`: index-ordering violation, duplicate label); the label is created
under the prefix in force. Nothing already in the graph is changed. -/
def append {R : Type} (g : ComputationGraph R) (operatorKind : Nat) (inputIndices : List Nat)
    (label : Option String) : Except Fault (ComputationGraph R × Nat) :=
  let newLabel := label.map (fun l => g.labelPrefix ++ l)
  if inputIndices.all (fun i => decide (i < g.size)) = false then .error .graphConstruction
  else if newLabel.isSome && g.nodes.any (fun n => n.label == newLabel) then
    .error .graphConstruction
  else
    .ok ({ g with nodes := g.nodes ++ [{ operatorKind := operatorKind, inputs := inputIndices,
                                         label := newLabel }] }, g.size)

/-- Modelled from the spec: `constant(value) -> nodeIndex` (deduplicating): identical literals
share one node, a new literal gets a new input node. -/
def constant {R : Type} [DecidableEq R] (g : ComputationGraph R) (value : R) :
    ComputationGraph R × Nat :=
  match g.constantPool.lookup value with
  | some i => (g, i)
  | none =>
    ({ g with nodes := g.nodes ++ [{ operatorKind := 0, inputs := [], label := none }],
              constantPool := g.constantPool ++ [(value, g.size)] }, g.size)

/-- Modelled from the spec: the graphs built through the operations of §4.1, starting from the
graph without nodes: `append`, `constant` and `setPrefix`. -/
inductive Built {R : Type} [DecidableEq R] : ComputationGraph R → Prop
  | empty : Built empty
  | append {g g' : ComputationGraph R} {idx : Nat} (operatorKind : Nat)
      (inputIndices : List Nat) (label : Option String) :
      Built g → g.append operatorKind inputIndices label = .ok (g', idx) → Built g'
  | constant {g : ComputationGraph R} (value : R) : Built g → Built (g.constant value).1
  | setPrefix {g : ComputationGraph R} (p : String) : Built g → Built (g.setPrefix p)

/-- Modelled from the spec: the modelled graph seen through the operations the constructor
uses. The constructor's `g->variable(name)` is read as `nodeIndex` of `name` under the prefix in
force: line 185 asks for the same names `_AMC_NPV_i` for every trade, after setting the trade's
prefix. -/
def api {R : Type} : GraphApi (ComputationGraph R) R where
  size := size
  setPrefix := setPrefix
  graphVariable := fun g name => g.nodeIndex (g.labelPrefix ++ name)
  constants := fun g => g.constantPool

end ComputationGraph

/-- What the trade loop uses of a `ScriptedInstrumentPricingEngineCG`: `npvName()` and
`buildComputationGraph()`, which extends the shared graph (or throws). -/
structure ScriptedInstrumentPricingEngineCG (G : Type) where
  npvName : String
  buildComputationGraph : G → Except Fault G

/-- A trade of the portfolio as the trade loop sees it: its id and, when both
`dynamic_pointer_cast`s of lines 172 and 174 succeed, the `ScriptedInstrumentPricingEngineCG`
that `portfolio_->build` (line 160) attaches to it. -/
structure Trade (G : Type) where
  id : String
  engine : Option (ScriptedInstrumentPricingEngineCG G)

/-- The conversion of the `int` returned by `atoi(getenv("N"))` to `Size` (`std::size_t`, 64
bits) in the comparison `i < atoi(getenv("N"))` of line 57. -/
def loopBound (atoiN : Int) : Nat := (atoiN % 2 ^ 64).toNat

/-- Lines 58-63, one pass `i` of the duplication: each trade `t` of the portfolio read back from
XML gets `t->id() += "_" + std::to_string(i + 1)` and is added to `portfolio_`. -/
def addCopies {G : Type} (supplied : List (Trade G)) (i : Nat)
    (portfolio : List (String × Trade G)) : List (String × Trade G) :=
  supplied.foldl
    (fun pf t => mapAssign pf (t.id ++ ("_" ++ toString (i + 1)))
      { t with id := t.id ++ ("_" ++ toString (i + 1)) })
    portfolio

/-- Lines 55-64: `portfolio_` after `n` passes of the duplication loop, starting from an empty
portfolio. The result is `portfolio_->trades()`, keyed by trade id. -/
def duplicatePortfolio {G : Type} (supplied : List (Trade G)) : Nat → List (String × Trade G)
  | 0 => []
  | i + 1 => addCopies supplied i (duplicatePortfolio supplied i)

/-- The locals the trade loop updates: the shared graph `*g` and the two maps of lines 168-169. -/
structure TradeLoopState (G : Type) where
  g : G
  amcNpvNodes : List (String × List Nat)
  tradeNodeRanges : List (String × (Nat × Nat))

/-- Lines 182-186: `tmp` starts with `g->variable(engine->npvName() + "_0")` and receives
`g->variable("_AMC_NPV_" + std::to_string(i))` for `i = 0, …, simulationDates.size() - 1`. -/
def amcNpvNodeList {G R : Type} (api : GraphApi G R) (g : G) (npvName : String) (nDates : Nat) :
    Except Fault (List Nat) :=
  match api.graphVariable g (npvName ++ "_0") with
  | .error e => .error e
  | .ok n0 =>
    forLoop nDates
      (fun i tmp =>
        match api.graphVariable g ("_AMC_NPV_" ++ toString i) with
        | .error e => .error e
        | .ok n => .ok (tmp ++ [n]))
      [n0]

/-- Lines 172-187, the body of the trade loop for the entry `(id, trade)` of
`portfolio_->trades()`. -/
def tradeStep {G R : Type} (api : GraphApi G R) (nDates : Nat) (s : TradeLoopState G)
    (entry : String × Trade G) : Except Fault (TradeLoopState G) :=
  match entry.2.engine with
  | none => .error .requireFailed
  | some engine =>
    let g1 := api.setPrefix s.g (entry.1 ++ "_")
    let firstNode := api.size g1
    match engine.buildComputationGraph g1 with
    | .error e => .error e
    | .ok g2 =>
      let lastNode := api.size g2
      let tradeNodeRanges := mapAssign s.tradeNodeRanges entry.1 (firstNode, lastNode)
      match amcNpvNodeList api g2 engine.npvName nDates with
      | .error e => .error e
      | .ok tmp =>
        .ok { g := g2, amcNpvNodes := mapAssign s.amcNpvNodes entry.1 tmp,
              tradeNodeRanges := tradeNodeRanges }

/-- Lines 168-188: the trade loop over `portfolio_->trades()`, from the graph `g` of the model
and empty maps. -/
def tradeLoop {G R : Type} (api : GraphApi G R) (nDates : Nat) (trades : List (String × Trade G))
    (s : TradeLoopState G) : Except Fault (TradeLoopState G) :=
  trades.foldlM (tradeStep api nDates) s

/-- Lines 55-64 followed by lines 168-188: the trade loop of the engine for a supplied
portfolio, run on the duplicated portfolio `portfolio_`. -/
def engineTradeLoop {G R : Type} (api : GraphApi G R) (nDates : Nat) (atoiN : Int)
    (supplied : List (Trade G)) (g : G) : Except Fault (TradeLoopState G) :=
  tradeLoop api nDates (duplicatePortfolio supplied (loopBound atoiN))
    { g := g, amcNpvNodes := [], tradeNodeRanges := [] }

/-! ### The forward evaluator and the constructor as a whole -/

/-- Modelled from the spec: the inputs of node `n` (none for an index that is not a node). -/
def nodeInputs (nodes : List Node) (n : Nat) : List Nat :=
  match nodes[n]? with
  | some node => node.inputs
  | none => []

/-- Modelled from the spec: the precomputed "last use" index of node `n` of §4.4: the greatest
index of a node that has `n` among its inputs, and `n` itself when no node has. -/
def lastUse (nodes : List Node) (n : Nat) : Nat :=
  ((List.range nodes.length).filter (fun i => decide (n ∈ nodeInputs nodes i))).foldl max n

/-- Modelled from the spec: "gather already-computed Operand values for its inputs"; reading an
input that holds no value is the failure `UnboundInput`. -/
def gatherInputs {R : Type} (store : List (Option (RandomVariable R))) :
    List Nat → Except Fault (List (RandomVariable R))
  | [] => .ok []
  | i :: rest =>
    match store[i]? with
    | some (some x) =>
      match gatherInputs store rest with
      | .error e => .error e
      | .ok xs => .ok (x :: xs)
    | _ => .error (.unboundInput i)

/-- Modelled from the spec: the evaluation of one node of §4.4. An input node keeps the value it
is bound to; any other node gets the value of its operator's forward function on the values of
its inputs. -/
def evaluateNode {R : Type} (ops : List (List (RandomVariable R) → RandomVariable R))
    (nodes : List Node) (node : Nat) (store : List (Option (RandomVariable R))) :
    Except Fault (List (Option (RandomVariable R))) :=
  match nodes[node]? with
  | none => .error .undefinedBehaviour
  | some nd =>
    if nd.inputs = [] then .ok store
    else
      match gatherInputs store nd.inputs with
      | .error e => .error e
      | .ok args =>
        match ops[nd.operatorKind]? with
        | none => .error (.unknownOperator node)
        | some forward => assignAt store node (some (forward args))

/-- Modelled from the spec: after node `node` is evaluated the value of `p` may be reclaimed
when no remaining node reads it (its last use is not after `node`) and its retention flag is
not set. -/
def releasable (nodes : List Node) (keepNodes : List Bool) (node p : Nat) : Bool :=
  decide (p ≤ node) && decide (lastUse nodes p ≤ node) && !(keepNodes[p]?.getD false)

/-- Modelled from the spec: the release of storage, the store with the entries `p` (counted
from `start`) for which `release p` holds emptied. -/
def releaseFrom {α : Type} (release : Nat → Bool) : Nat → List (Option α) → List (Option α)
  | _, [] => []
  | start, v :: rest =>
    (if release start then none else v) :: releaseFrom release (start + 1) rest

/-- Modelled from the spec: one iteration of the Forward Evaluator of §4.4: node `node` is
evaluated, then the values that no remaining node reads are released unless retained. -/
def evaluationStep {R : Type} (ops : List (List (RandomVariable R) → RandomVariable R))
    (nodes : List Node) (keepNodes : List Bool) (node : Nat)
    (store : List (Option (RandomVariable R))) : Except Fault (List (Option (RandomVariable R))) :=
  match evaluateNode ops nodes node store with
  | .error e => .error e
  | .ok store' => .ok (releaseFrom (releasable nodes keepNodes node) 0 store')

/-- Modelled from the spec: the Forward Evaluator of §4.4 (`forwardEvaluation`, declared in
`qle/ad/forwardevaluation.hpp`, which is not among the sources): the nodes are evaluated in
ascending index order, each followed by the release of the values no remaining node reads. The
result is the sparse value store. Numeric edge cases propagate as values (the default), and
there is no cancellation request. -/
def forwardEvaluation {R : Type} (g : ComputationGraph R)
    (ops : List (List (RandomVariable R) → RandomVariable R))
    (bindings : List (Option (RandomVariable R))) (keepNodes : List Bool) :
    Except Fault (List (Option (RandomVariable R))) :=
  forLoop g.size (evaluationStep ops g.nodes keepNodes) bindings

/-- The inputs of every node precede it: the order of a graph built through `append`. -/
def InputsPrecede (nodes : List Node) : Prop :=
  ∀ (n : Nat) (node : Node), nodes[n]? = some node → ∀ i ∈ node.inputs, i < n

/-- The value of `p` has been released before node `i` is evaluated: `p` and its last use come
before `i`, and `p` is not retained. -/
def releasedBefore (nodes : List Node) (keepNodes : List Bool) (i p : Nat) : Prop :=
  p < i ∧ lastUse nodes p < i ∧ keepNodes[p]?.getD false = false

/-- The state of the store when the evaluator reaches node `i`: one entry per node, and every
value that has not been released is there. -/
def StoreBound {R : Type} (nodes : List Node) (keepNodes : List Bool) (i : Nat)
    (store : List (Option (RandomVariable R))) : Prop :=
  store.length = nodes.length ∧
  ∀ p, p < nodes.length → ¬ releasedBefore nodes keepNodes i p → ∃ x, store[p]? = some (some x)

/-- What the constructor uses of `model_` (a `GaussianCamCG`) after the trades are built:
`size()`, `randomVariates()` and `modelParameters()`. -/
structure ModelCG (R : Type) where
  size : Nat
  randomVariates : List (List Nat)
  modelParameters : List (Nat × R)

/-- The inputs of stages 5 to 8: the supplied portfolio (its trades built), the generator data
of `scenarioGeneratorData_`, the number of simulation dates, the graph of the model after
`model_->calculate()`, the model, and the operator table `getRandomVariableOps(...)`. -/
structure EngineArguments (S O D R : Type) where
  supplied : List (Trade (ComputationGraph R))
  scenarioGeneratorData : GeneratorData S O D
  nDates : Nat
  modelGraph : ComputationGraph R
  model : ModelCG R
  ops : List (List (RandomVariable R) → RandomVariable R)

/-- The members of the engine that stages 5 to 8 read or assign: `scenarioGeneratorData_`,
`portfolio_`, `model_` with its graph, `baseModelParams_` and `ops_`. -/
structure Members (S O D R : Type) where
  scenarioGeneratorData_ : GeneratorData S O D
  portfolio_ : List (String × Trade (ComputationGraph R))
  model_ : ModelCG R
  computationGraph : ComputationGraph R
  baseModelParams_ : List (Nat × R)
  ops_ : List (List (RandomVariable R) → RandomVariable R)

/-- The locals of the constructor at its closing brace (line 291): the maps of the trade loop,
`values` as bound before the evaluation, `keepNodes`, and `values` after the evaluation. -/
structure ConstructorLocals (R : Type) where
  amcNpvNodes : List (String × List Nat)
  tradeNodeRanges : List (String × (Nat × Nat))
  boundValues : List (RandomVariable R)
  keepNodes : List Bool
  values : List (Option (RandomVariable R))

/-- Stage 8, lines 240-251: the retention bitmap and the forward evaluation of the whole graph
on the bound value vector. -/
def evaluateStage {R : Type} (g : ComputationGraph R)
    (ops : List (List (RandomVariable R) → RandomVariable R))
    (amcNpvNodes : List (String × List Nat)) (boundValues : List (RandomVariable R)) :
    Except Fault (List Bool × List (Option (RandomVariable R))) :=
  match buildKeepNodes g.size amcNpvNodes with
  | .error e => .error e
  | .ok keepNodes =>
    match forwardEvaluation g ops (boundValues.map some) keepNodes with
    | .error e => .error e
    | .ok values => .ok (keepNodes, values)

/-- Stages 6 and 7, lines 199-230, on a graph of the modelled class. -/
def bindStage {S O D R : Type} [Zero R] (makeMultiPathVariateGenerator : GeneratorFactory S O D R)
    (data : GeneratorData S O D) (model : ModelCG R) (g : ComputationGraph R) :
    Except Fault (List (RandomVariable R)) :=
  match populateRandomVariates makeMultiPathVariateGenerator data model.randomVariates
      model.size g.size with
  | .error e => .error e
  | .ok r =>
    populateConstantsAndParameters (ComputationGraph.api.constants g) model.modelParameters
      model.size r.1

/-- The constructor from the portfolio duplication to its end: the members it leaves in the
engine and, for reference, its locals. The constructor returns nothing else. -/
def construct {S O D R : Type} [Zero R] (makeMultiPathVariateGenerator : GeneratorFactory S O D R)
    (atoiN : Int) (args : EngineArguments S O D R) :
    Except Fault (Members S O D R × ConstructorLocals R) :=
  match engineTradeLoop ComputationGraph.api args.nDates atoiN args.supplied args.modelGraph with
  | .error e => .error e
  | .ok s =>
    match bindStage makeMultiPathVariateGenerator args.scenarioGeneratorData args.model s.g with
    | .error e => .error e
    | .ok boundValues =>
      match evaluateStage s.g args.ops s.amcNpvNodes boundValues with
      | .error e => .error e
      | .ok r =>
        .ok ({ scenarioGeneratorData_ := args.scenarioGeneratorData,
               portfolio_ := duplicatePortfolio args.supplied (loopBound atoiN),
               model_ := args.model,
               computationGraph := s.g,
               baseModelParams_ := args.model.modelParameters,
               ops_ := args.ops },
             { amcNpvNodes := s.amcNpvNodes,
               tradeNodeRanges := s.tradeNodeRanges,
               boundValues := boundValues,
               keepNodes := r.1,
               values := r.2 })

/-- The graph after an `append` whose node index the caller does not use. -/
def appendNode (g : ComputationGraph Int) (operatorKind : Nat) (inputIndices : List Nat)
    (label : Option String) : Except Fault (ComputationGraph Int) :=
  match g.append operatorKind inputIndices label with
  | .error e => .error e
  | .ok r => .ok r.1

/-- A contributor for two simulation dates: an input node `x`, the time-zero NPV `npv_0 = op0(x)`
and the two nodes `_AMC_NPV_0 = op0(x)` and `_AMC_NPV_1 = op1(x, _AMC_NPV_0)`, labelled under
the prefix in force. -/
def exampleEngine : ScriptedInstrumentPricingEngineCG (ComputationGraph Int) where
  npvName := "npv"
  buildComputationGraph := fun g =>
    (appendNode g 0 [] (some "x")).bind fun g1 =>
    (appendNode g1 0 [g.size] (some "npv_0")).bind fun g2 =>
    (appendNode g2 0 [g.size] (some "_AMC_NPV_0")).bind fun g3 =>
    appendNode g3 1 [g.size, g.size + 2] (some "_AMC_NPV_1")

/-- A supplied trade `T` priced by `exampleEngine`. -/
def exampleTrade : Trade (ComputationGraph Int) := { id := "T", engine := some exampleEngine }

/-- The trade loop's initial state on the empty graph. -/
def exampleStart : TradeLoopState (ComputationGraph Int) :=
  { g := ComputationGraph.empty, amcNpvNodes := [], tradeNodeRanges := [] }

/-- A generator whose draw `p` is the block `[[10 p + 1, 10 p + 2]]` (one time step, two
factors), whatever the settings. -/
def exampleFactory : GeneratorFactory Unit Unit Unit Int :=
  fun _ _ _ _ _ _ => { draws := fun p => [[10 * (p : Int) + 1, 10 * (p : Int) + 2]], cursor := 0 }

/-- The settings handed to `exampleFactory`. -/
def exampleData : GeneratorData Unit Unit Unit :=
  { sequenceType := (), seed := 42, ordering := (), directionIntegers := () }

/-- The graph the example contributor builds from the graph without nodes under the prefix
`T_1_`: four nodes, the last with the inputs 0 and 2. -/
def exampleGraph : ComputationGraph Int :=
  { nodes := [{ operatorKind := 0, inputs := [], label := some "T_1_x" },
              { operatorKind := 0, inputs := [0], label := some "T_1_npv_0" },
              { operatorKind := 0, inputs := [0], label := some "T_1__AMC_NPV_0" },
              { operatorKind := 1, inputs := [0, 2], label := some "T_1__AMC_NPV_1" }],
    constantPool := [], labelPrefix := "T_1_" }

/-- A contributor for one simulation date over a model with the variate node `0`: an input
node `x` that nothing binds, the time-zero NPV `npv_0 = op1(node 0, x)` and
`_AMC_NPV_0 = op0(npv_0)`. -/
def variateEngine : ScriptedInstrumentPricingEngineCG (ComputationGraph Int) where
  npvName := "npv"
  buildComputationGraph := fun g =>
    (appendNode g 0 [] (some "x")).bind fun g1 =>
    (appendNode g1 1 [0, g.size] (some "npv_0")).bind fun g2 =>
    appendNode g2 0 [g.size + 1] (some "_AMC_NPV_0")

/-- The operator table of the examples: operator 0 adds one on every path, operator 1 adds its
two inputs path by path. -/
def exampleOps : List (List (RandomVariable Int) → RandomVariable Int) :=
  [fun args => match args with
     | [a] => { data := a.data.map (fun v => v + 1) }
     | _ => { data := [] },
   fun args => match args with
     | [a, b] => { data := List.zipWith (fun v w => v + w) a.data b.data }
     | _ => { data := [] }]

/-- Arguments of the examples: one supplied trade `T` priced by `variateEngine`, one simulation
date, a model of two paths whose graph is the single variate node `z` (one factor, one time
step), no constants and no model parameters. -/
def exampleArguments : EngineArguments Unit Unit Unit Int :=
  { supplied := [{ id := "T", engine := some variateEngine }],
    scenarioGeneratorData := exampleData,
    nDates := 1,
    modelGraph := { nodes := [{ operatorKind := 0, inputs := [], label := some "z" }],
                    constantPool := [], labelPrefix := "" },
    model := { size := 2, randomVariates := [[0]], modelParameters := [] },
    ops := exampleOps }

/-- The graph of the example after the trade loop: the variate node `z` of the model and the
three nodes of the copy `T_1` of the trade. -/
def examplePricedGraph : ComputationGraph Int :=
  { nodes := [{ operatorKind := 0, inputs := [], label := some "z" },
              { operatorKind := 0, inputs := [], label := some "T_1_x" },
              { operatorKind := 1, inputs := [0, 1], label := some "T_1_npv_0" },
              { operatorKind := 0, inputs := [2], label := some "T_1__AMC_NPV_0" }],
    constantPool := [], labelPrefix := "T_1_" }

end XvaEngineCG

/-!
# CrossAssetModelData: the configuration vectors

A shallow embedding of `CrossAssetModelData::buildIrConfigs`, `buildFxConfigs`,
`buildInfConfigs`, `buildCrConfigs` and `validate` (`OREData/ored/model/crossassetmodeldata.cpp`).
The configuration classes are declared in headers that are not among the sources; each is a
record of the accessors the source calls, and its constructor is taken to store each argument
in the field of the accessor the source passes at that position. A `std::map<std::string, T>`
read by `find` and `operator[]` is a list of pairs read by `List.lookup`; a vector of
`boost::shared_ptr` that is resized holds `Option`s, `none` for a null pointer.
-/

namespace CrossAssetModelData

open XvaEngineCG

/-- The accessors of `IrLgmData` that lines 447-452 read: the currency and the sixteen further
constructor arguments. -/
structure IrLgmData (R : Type) where
  ccy : String
  calibrationType : Nat
  reversionType : Nat
  volatilityType : Nat
  calibrateH : Bool
  hParamType : Nat
  hTimes : List R
  hValues : List R
  calibrateA : Bool
  aParamType : Nat
  aTimes : List R
  aValues : List R
  shiftHorizon : R
  scaling : R
  optionExpiries : List String
  optionTerms : List String
  optionStrikes : List String
  deriving DecidableEq

/-- Lines 447-452: `boost::make_shared<IrLgmData>(ccy, def->calibrationType(), ...)`, the copy
of the default configuration with the currency overwritten. -/
def irFromDefault {R : Type} (ccy : String) (d : IrLgmData R) : IrLgmData R :=
  { ccy := ccy,
    calibrationType := d.calibrationType, reversionType := d.reversionType,
    volatilityType := d.volatilityType, calibrateH := d.calibrateH,
    hParamType := d.hParamType, hTimes := d.hTimes, hValues := d.hValues,
    calibrateA := d.calibrateA, aParamType := d.aParamType, aTimes := d.aTimes,
    aValues := d.aValues, shiftHorizon := d.shiftHorizon, scaling := d.scaling,
    optionExpiries := d.optionExpiries, optionTerms := d.optionTerms,
    optionStrikes := d.optionStrikes }

/-- The call `v.resize(n)` on a vector of shared pointers: the first `n` entries are kept and
null pointers are appended up to the size `n`. -/
def resize {α : Type} (v : List (Option α)) (n : Nat) : List (Option α) :=
  v.take n ++ List.replicate (n - v.length) none

/-- Lines 437-453, the body of the loop of `buildIrConfigs` for the index `i`. -/
def irStep {R : Type} (currencies : List String) (irDataMap : List (String × IrLgmData R))
    (i : Nat) (irConfigs : List (Option (IrLgmData R))) :
    Except Fault (List (Option (IrLgmData R))) :=
  match currencies[i]? with
  | none => .error .undefinedBehaviour
  | some ccy =>
    match irDataMap.lookup ccy with
    | some config => assignAt irConfigs i (some config)
    | none =>
      match irDataMap.lookup "default" with
      | none => .error .requireFailed
      | some d => assignAt irConfigs i (some (irFromDefault ccy d))

/-- Lines 429-456, `CrossAssetModelData::buildIrConfigs`: the new `irConfigs_`, from
`currencies_`, the map and the old `irConfigs_`. -/
def buildIrConfigs {R : Type} (currencies : List String)
    (irDataMap : List (String × IrLgmData R)) (irConfigs : List (Option (IrLgmData R))) :
    Except Fault (List (Option (IrLgmData R))) :=
  forLoop currencies.length (irStep currencies irDataMap) (resize irConfigs currencies.length)

/-- The accessors of `FxBsData` that lines 477-479 read. -/
structure FxBsData (R : Type) where
  foreignCcy : String
  domesticCcy : String
  calibrationType : Nat
  calibrateSigma : Bool
  sigmaParamType : Nat
  sigmaTimes : List R
  sigmaValues : List R
  optionExpiries : List String
  optionStrikes : List String
  deriving DecidableEq

/-- Lines 477-479: `boost::make_shared<FxBsData>(ccy, def->domesticCcy(), ...)`, the copy of the
default configuration with the foreign currency overwritten. -/
def fxFromDefault {R : Type} (ccy : String) (d : FxBsData R) : FxBsData R :=
  { foreignCcy := ccy, domesticCcy := d.domesticCcy, calibrationType := d.calibrationType,
    calibrateSigma := d.calibrateSigma, sigmaParamType := d.sigmaParamType,
    sigmaTimes := d.sigmaTimes, sigmaValues := d.sigmaValues,
    optionExpiries := d.optionExpiries, optionStrikes := d.optionStrikes }

/-- Lines 465-482, the body of the loop of `buildFxConfigs` for the index `i`. -/
def fxStep {R : Type} (domesticCurrency : String) (currencies : List String)
    (fxDataMap : List (String × FxBsData R)) (i : Nat) (fxConfigs : List (FxBsData R)) :
    Except Fault (List (FxBsData R)) :=
  match currencies[i]? with
  | none => .error .undefinedBehaviour
  | some ccy =>
    if ccy = domesticCurrency then .ok fxConfigs
    else
      match fxDataMap.lookup ccy with
      | some config => .ok (fxConfigs ++ [config])
      | none =>
        match fxDataMap.lookup "default" with
        | none => .error .requireFailed
        | some d => .ok (fxConfigs ++ [fxFromDefault ccy d])

/-- Lines 458-485, `CrossAssetModelData::buildFxConfigs`: `fxConfigs_` after the call. -/
def buildFxConfigs {R : Type} (domesticCurrency : String) (currencies : List String)
    (fxDataMap : List (String × FxBsData R)) (fxConfigs : List (FxBsData R)) :
    Except Fault (List (FxBsData R)) :=
  forLoop currencies.length (fxStep domesticCurrency currencies fxDataMap) fxConfigs

/-- An `InflationModelData` behind its shared pointer: an `InfDkData`, an `InfJyData` or another
subclass, with the index name `index()` and the rest of its data. -/
inductive InflationModelData (P : Type) where
  | infDk (index : String) (data : P)
  | infJy (index : String) (data : P)
  | other (index : String) (data : P)
  deriving DecidableEq

/-- The accessor `index()` of an `InflationModelData`. -/
def InflationModelData.index {P : Type} : InflationModelData P → String
  | .infDk index _ => index
  | .infJy index _ => index
  | .other index _ => index

/-- Lines 525-545, the body of the loop of `buildInfConfigs` for the index name `indexName`. The
copy constructors `InfDkData(*dk)` and `InfJyData(*jy)` copy every member. -/
def infStep {P : Type} (mp : List (String × InflationModelData P))
    (infConfigs : List (InflationModelData P)) (indexName : String) :
    Except Fault (List (InflationModelData P)) :=
  match mp.lookup indexName with
  | some config => .ok (infConfigs ++ [config])
  | none =>
    match mp.lookup "default" with
    | none => .error .requireFailed
    | some (.infDk index data) => .ok (infConfigs ++ [.infDk index data])
    | some (.infJy index data) => .ok (infConfigs ++ [.infJy index data])
    | some (.other _ _) => .error .requireFailed

/-- Lines 514-549, `CrossAssetModelData::buildInfConfigs`: `infConfigs_` after the call. -/
def buildInfConfigs {P : Type} (infindices : List String)
    (mp : List (String × InflationModelData P)) (infConfigs : List (InflationModelData P)) :
    Except Fault (List (InflationModelData P)) :=
  infindices.foldlM (infStep mp) infConfigs

/-- The accessors of `CrLgmData` that lines 577-582 read: the name and the sixteen further
constructor arguments. -/
structure CrLgmData (R : Type) where
  name : String
  calibrationType : Nat
  reversionType : Nat
  volatilityType : Nat
  calibrateH : Bool
  hParamType : Nat
  hTimes : List R
  hValues : List R
  calibrateA : Bool
  aParamType : Nat
  aTimes : List R
  aValues : List R
  shiftHorizon : R
  scaling : R
  optionExpiries : List String
  optionTerms : List String
  optionStrikes : List String
  deriving DecidableEq

/-- Lines 577-582: `boost::make_shared<CrLgmData>(name, def->calibrationType(), ...)`, the copy
of the LGM default configuration with the name overwritten. -/
def crFromDefault {R : Type} (name : String) (d : CrLgmData R) : CrLgmData R :=
  { name := name,
    calibrationType := d.calibrationType, reversionType := d.reversionType,
    volatilityType := d.volatilityType, calibrateH := d.calibrateH,
    hParamType := d.hParamType, hTimes := d.hTimes, hValues := d.hValues,
    calibrateA := d.calibrateA, aParamType := d.aParamType, aTimes := d.aTimes,
    aValues := d.aValues, shiftHorizon := d.shiftHorizon, scaling := d.scaling,
    optionExpiries := d.optionExpiries, optionTerms := d.optionTerms,
    optionStrikes := d.optionStrikes }

/-- The two vectors `crLgmConfigs_` and `crCirConfigs_`; `C` is the class `CrCirData`. -/
structure CrConfigs (R C : Type) where
  crLgmConfigs : List (CrLgmData R)
  crCirConfigs : List C

/-- Lines 562-583, the body of the loop of `buildCrConfigs` for the index `i`. -/
def crStep {R C : Type} (creditNames : List String) (crLgmDataMap : List (String × CrLgmData R))
    (crCirDataMap : List (String × C)) (i : Nat) (s : CrConfigs R C) :
    Except Fault (CrConfigs R C) :=
  match creditNames[i]? with
  | none => .error .undefinedBehaviour
  | some name =>
    match crLgmDataMap.lookup name with
    | some lgm =>
      match crCirDataMap.lookup name with
      | some _ => .error .requireFailed
      | none => .ok { s with crLgmConfigs := s.crLgmConfigs ++ [lgm] }
    | none =>
      match crCirDataMap.lookup name with
      | some cir => .ok { s with crCirConfigs := s.crCirConfigs ++ [cir] }
      | none =>
        match crLgmDataMap.lookup "default" with
        | none => .error .requireFailed
        | some d => .ok { s with crLgmConfigs := s.crLgmConfigs ++ [crFromDefault name d] }

/-- Lines 551-586, `CrossAssetModelData::buildCrConfigs`: both vectors are cleared, then
filled in the order of `creditNames_`. -/
def buildCrConfigs {R C : Type} (creditNames : List String)
    (crLgmDataMap : List (String × CrLgmData R)) (crCirDataMap : List (String × C)) :
    Except Fault (CrConfigs R C) :=
  forLoop creditNames.length (crStep creditNames crLgmDataMap crCirDataMap)
    { crLgmConfigs := [], crCirConfigs := [] }

/-- Lines 199-201, the body of the loop of `validate`: the subscripts `fxConfigs_[i]` and
`irConfigs_[i + 1]`, out of range undefined behaviour, and the `QL_REQUIRE` on the currencies. -/
def validateStep {R : Type} (fxConfigs : List (FxBsData R)) (irConfigs : List (IrLgmData R))
    (i : Nat) (_ : Unit) : Except Fault Unit :=
  match fxConfigs[i]?, irConfigs[i + 1]? with
  | some fx, some ir => if fx.foreignCcy = ir.ccy then .ok () else .error .requireFailed
  | _, _ => .error .undefinedBehaviour

/-- Lines 196-202, `CrossAssetModelData::validate`, on the configurations that the pointers in
`fxConfigs_` and `irConfigs_` point to. After the first `QL_REQUIRE` the subtraction
`irConfigs_.size() - 1` on `Size` does not wrap. -/
def validate {R : Type} (fxConfigs : List (FxBsData R)) (irConfigs : List (IrLgmData R)) :
    Except Fault Unit :=
  if ¬ irConfigs.length > 0 then .error .requireFailed
  else if ¬ fxConfigs.length = irConfigs.length - 1 then .error .requireFailed
  else forLoop fxConfigs.length (validateStep fxConfigs irConfigs) ()

/-- What the loop of `buildIrConfigs` has established before index `i`: the vector has its
final size and every entry below `i` holds the configuration chosen for its currency. -/
def IrFilled {R : Type} (currencies : List String) (irDataMap : List (String × IrLgmData R))
    (i : Nat) (s : List (Option (IrLgmData R))) : Prop :=
  s.length = currencies.length ∧
    ∀ (j : Nat) (ccy : String), j < i → currencies[j]? = some ccy →
      (∀ c, irDataMap.lookup ccy = some c → s[j]? = some (some c)) ∧
      (irDataMap.lookup ccy = none → ∀ d, irDataMap.lookup "default" = some d →
        s[j]? = some (some { d with ccy := ccy })) ∧
      (irDataMap.lookup ccy = none → irDataMap.lookup "default" ≠ none)

/-- The CIR configuration that goes to `crCirConfigs_` for the credit name `name`: the CIR entry
of a name that has no LGM entry. -/
def cirChoice {R C : Type} (crLgmDataMap : List (String × CrLgmData R))
    (crCirDataMap : List (String × C)) (name : String) : Option C :=
  match crLgmDataMap.lookup name with
  | some _ => none
  | none => crCirDataMap.lookup name

/-- The LGM configuration that goes to `crLgmConfigs_` for the credit name `name`: its own LGM
entry, or for a name with neither entry the LGM default with the name replaced by `name` and
every other field unchanged. -/
def lgmChoice {R C : Type} (crLgmDataMap : List (String × CrLgmData R))
    (crCirDataMap : List (String × C)) (name : String) : Option (CrLgmData R) :=
  match crLgmDataMap.lookup name with
  | some lgm => some lgm
  | none =>
    match crCirDataMap.lookup name with
    | some _ => none
    | none => (crLgmDataMap.lookup "default").map (fun d => { d with name := name })

/-- The credit names on which `buildCrConfigs` is said to throw: a name with both an LGM and a
CIR entry, or a name with neither while there is no LGM entry under "default". -/
def crRejected {R C : Type} (crLgmDataMap : List (String × CrLgmData R))
    (crCirDataMap : List (String × C)) (name : String) : Prop :=
  (crLgmDataMap.lookup name ≠ none ∧ crCirDataMap.lookup name ≠ none) ∨
    (crLgmDataMap.lookup name = none ∧ crCirDataMap.lookup name = none ∧
      crLgmDataMap.lookup "default" = none)

/-- What the loop of `buildCrConfigs` has established before index `i`: the two vectors hold
the choices for the first `i` names, in order, one configuration for each name. -/
def CrFilled {R C : Type} (creditNames : List String)
    (crLgmDataMap : List (String × CrLgmData R)) (crCirDataMap : List (String × C))
    (i : Nat) (s : CrConfigs R C) : Prop :=
  s.crLgmConfigs = (creditNames.take i).filterMap (lgmChoice crLgmDataMap crCirDataMap) ∧
    s.crCirConfigs = (creditNames.take i).filterMap (cirChoice crLgmDataMap crCirDataMap) ∧
    s.crLgmConfigs.length + s.crCirConfigs.length = i ∧
    ∀ name, name ∈ creditNames.take i → ¬ crRejected crLgmDataMap crCirDataMap name

/-! ### Example configurations -/

/-- An IR configuration for the currency or key `ccy`, with `h` as its only `hValues` entry. -/
def exampleIr (ccy : String) (h : Int) : IrLgmData Int :=
  { ccy := ccy, calibrationType := 1, reversionType := 0, volatilityType := 1,
    calibrateH := false, hParamType := 0, hTimes := [], hValues := [h], calibrateA := true,
    aParamType := 1, aTimes := [1], aValues := [2, 3], shiftHorizon := 0, scaling := 1,
    optionExpiries := ["1Y"], optionTerms := ["5Y"], optionStrikes := ["ATM"] }

/-- An FX configuration for the foreign currency or key `ccy`. -/
def exampleFx (ccy : String) : FxBsData Int :=
  { foreignCcy := ccy, domesticCcy := "EUR", calibrationType := 1, calibrateSigma := true,
    sigmaParamType := 1, sigmaTimes := [1], sigmaValues := [2, 3], optionExpiries := ["1Y"],
    optionStrikes := ["ATMF"] }

/-- A credit LGM configuration for the name or key `name`. -/
def exampleCr (name : String) : CrLgmData Int :=
  { name := name, calibrationType := 1, reversionType := 0, volatilityType := 1,
    calibrateH := false, hParamType := 0, hTimes := [], hValues := [0], calibrateA := true,
    aParamType := 1, aTimes := [1], aValues := [2, 3], shiftHorizon := 0, scaling := 1,
    optionExpiries := ["1Y"], optionTerms := ["5Y"], optionStrikes := ["ATM"] }

end CrossAssetModelData

/-!
# InstantaneousCorrelations: comparison and the XML round trip

A shallow embedding of `InstantaneousCorrelations::operator==`, `operator!=`, `fromXML`, `toXML`
and of the local function `fromNode` (`OREData/ored/model/crossassetmodeldata.cpp`, lines
52-131). The member `correlations_`, a `std::map<CorrelationKey, Handle<Quote>>`, is the list of
its entries in iteration order, each quote given by its value.
-/

namespace InstantaneousCorrelations

open XvaEngineCG

/-- The struct `CorrelationFactor` with the three members that `toXML` reads and `fromNode`
writes; `type` is the enumerator of `CrossAssetModel::AssetType`. Two factors are equal when the
three members are. -/
structure CorrelationFactor where
  type : Nat
  name : String
  index : Nat
  deriving DecidableEq

/-- The type `CorrelationKey`, a pair of factors. -/
abbrev CorrelationKey : Type := CorrelationFactor × CorrelationFactor

/-- Lines 115-127, `InstantaneousCorrelations::operator==`: both maps are walked in step; a pair
of entries with different keys or with values that are not `close_enough` gives `false`, and so
does a map that has entries left when the other is exhausted. -/
def operatorEq {R : Type} (closeEnough : R → R → Bool) :
    List (CorrelationKey × R) → List (CorrelationKey × R) → Bool
  | corr1 :: rest1, corr2 :: rest2 =>
    if corr1.1 ≠ corr2.1 ∨ ¬ closeEnough corr1.2 corr2.2 = true then false
    else operatorEq closeEnough rest1 rest2
  | [], [] => true
  | _ :: _, [] => false
  | [], _ :: _ => false

/-- Lines 129-131, `InstantaneousCorrelations::operator!=`. -/
def operatorNe {R : Type} (closeEnough : R → R → Bool)
    (lhs rhs : List (CorrelationKey × R)) : Bool :=
  !(operatorEq closeEnough lhs rhs)

/-- Modelled from the spec: the class `XMLNode` and the functions of `XMLUtils` and `XMLDocument`
are not among the sources. An element is what `toXML` writes and `fromXML` reads back: its name,
its value, its attributes and its child elements, in document order. -/
inductive XMLNode where
  | mk (name : String) (value : String) (attributes : List (String × String))
      (children : List XMLNode)

/-- The name of an element. -/
def XMLNode.name : XMLNode → String
  | .mk name _ _ _ => name

/-- The value of an element. -/
def XMLNode.value : XMLNode → String
  | .mk _ value _ _ => value

/-- The attributes of an element. -/
def XMLNode.attributes : XMLNode → List (String × String)
  | .mk _ _ attributes _ => attributes

/-- The child elements of an element. -/
def XMLNode.children : XMLNode → List XMLNode
  | .mk _ _ _ children => children

/-- Modelled from the spec: `XMLUtils::appendNode` is not among the sources. The call
`XMLUtils::appendNode(parent, child)` makes `child` the last child of `parent`. -/
def appendNode (parent child : XMLNode) : XMLNode :=
  .mk parent.name parent.value parent.attributes (parent.children ++ [child])

/-- The order of the example keys: by the index of the first factor. -/
def exampleLt (a b : CorrelationKey) : Bool := decide (a.1.index < b.1.index)

/-- A comparison of integers in the place of `close_enough`: equal up to one unit. -/
def exampleCloseEnough (x y : Int) : Bool := decide ((x - y).natAbs ≤ 1)

/-- Two entries: the first with a null index on its second factor. -/
def exampleCorrelations : List (CorrelationKey × Int) :=
  [(({ type := 0, name := "EUR", index := 0 }, { type := 1, name := "EUR", index := 7 }), 5),
   (({ type := 1, name := "EUR", index := 2 }, { type := 2, name := "EUR", index := 3 }), 6)]

end InstantaneousCorrelations

/-!
# IterativeBootstrap: the convergence loop

A shallow embedding of the loop of `QuantExt::IterativeBootstrap<Curve>::calculate`
(`QuantExt/qle/termstructures/iterativebootstrap.hpp`, lines 176-262). A `QuantLib::Real` is an
IEEE double: a number or NaN, compared as C++ compares doubles. The subtraction and `std::fabs`
are parameters, as is the sweep over the pillars (lines 186-239), which works through `Traits`,
`Interpolator` and the solvers of QuantLib, template arguments and library classes.
-/

namespace IterativeBootstrap

open XvaEngineCG

/-- A `QuantLib::Real`, an IEEE double: NaN, or a number of the linearly ordered type `F` of the
doubles other than NaN (the infinities are numbers, the least and the greatest). -/
inductive Double (F : Type) where
  | number (x : F)
  | nan
  deriving DecidableEq

/-- The comparison `a < b` of two doubles: false when either is NaN. -/
def Double.lt {F : Type} [LinearOrder F] : Double F → Double F → Bool
  | .number x, .number y => decide (x < y)
  | _, _ => false

end IterativeBootstrap

namespace XvaEngineCG

/-! ## Loop rules -/

/-- Invariant rule for a range-based `for`: an invariant on (elements done, state) that every
iteration re-establishes holds at the end, and the loop completes. -/
theorem foldlM_invariant {σ α : Type} (body : σ → α → Except Fault σ)
    (P : List α → σ → Prop) (todo : List α) :
    ∀ (done : List α) (s : σ), P done s →
      (∀ d x s, x ∈ todo → P d s → ∃ s', body s x = .ok s' ∧ P (d ++ [x]) s') →
      ∃ s', todo.foldlM body s = .ok s' ∧ P (done ++ todo) s' := by
  induction todo with
  | nil =>
    intro done s h _
    exact ⟨s, rfl, by simpa using h⟩
  | cons x xs ih =>
    intro done s h step
    obtain ⟨s1, hb, h1⟩ := step done x s (List.mem_cons_self x xs) h
    obtain ⟨s2, hf, h2⟩ := ih (done ++ [x]) s1 h1
      (fun d y t hy ht => step d y t (List.mem_cons_of_mem x hy) ht)
    refine ⟨s2, ?_, by simpa using h2⟩
    rw [List.foldlM_cons, hb]
    exact hf

/-- Invariant rule for `forLoop`. -/
theorem forLoop_invariant {σ : Type} (body : Nat → σ → Except Fault σ) (P : Nat → σ → Prop)
    (n : Nat) (s : σ) (h0 : P 0 s)
    (step : ∀ i s, i < n → P i s → ∃ s', body i s = .ok s' ∧ P (i + 1) s') :
    ∃ s', forLoop n body s = .ok s' ∧ P n s' := by
  induction n with
  | zero => exact ⟨s, rfl, h0⟩
  | succ k ih =>
    obtain ⟨s1, hf, h1⟩ := ih (fun i t hi ht => step i t (Nat.lt_succ_of_lt hi) ht)
    obtain ⟨s2, hb, h2⟩ := step k s1 (Nat.lt_succ_self k) h1
    exact ⟨s2, by simp [forLoop, hf, Except.bind, hb], h2⟩

theorem forLoop_ok_invariant {σ : Type} (body : Nat → σ → Except Fault σ) (P : Nat → σ → Prop)
    (n : Nat) (s : σ) (h0 : P 0 s)
    (step : ∀ i s t, i < n → P i s → body i s = .ok t → P (i + 1) t) :
    ∀ s', forLoop n body s = .ok s' → P n s' := by
  induction n with
  | zero =>
    intro s' h
    simp only [forLoop, Except.ok.injEq] at h
    exact h ▸ h0
  | succ k ih =>
    intro s' h
    simp only [forLoop] at h
    cases hk : forLoop k body s with
    | error e => simp [hk, Except.bind] at h
    | ok s1 =>
      simp only [hk, Except.bind] at h
      exact step k s1 s' (Nat.lt_succ_self k)
        (ih (fun i a b hi => step i a b (Nat.lt_succ_of_lt hi)) s1 hk) h

theorem assignAt_ok {α : Type} (v : List α) (i : Nat) (x : α) (h : i < v.length) :
    assignAt v i x = .ok (v.set i x) := by
  simp [assignAt, h]

theorem charsLess_irrefl (a : List Char) : charsLess a a = false := by
  induction a with
  | nil => rfl
  | cons c cs ih => simp [charsLess, ih]

theorem charsLess_total : ∀ a b : List Char,
    charsLess a b = false → charsLess b a = false → a = b := by
  intro a
  induction a with
  | nil =>
    intro b h1 _
    cases b with
    | nil => rfl
    | cons c cs => simp [charsLess] at h1
  | cons c cs ih =>
    intro b h1 h2
    cases b with
    | nil => simp [charsLess] at h2
    | cons d ds =>
      simp only [charsLess] at h1 h2
      by_cases hcd : c < d
      · simp [hcd] at h1
      · by_cases hdc : d < c
        · simp [hdc] at h2
        · simp only [hcd, hdc, if_false] at h1 h2
          have hceq : c = d := le_antisymm (not_lt.mp hdc) (not_lt.mp hcd)
          rw [hceq, ih ds h1 h2]

theorem stringLess_ne (a b : String) (h : stringLess a b = true) : a ≠ b := by
  intro hab
  subst hab
  simp [stringLess, charsLess_irrefl] at h

theorem stringLess_total (a b : String) (h1 : ¬ stringLess a b = true)
    (h2 : ¬ stringLess b a = true) : a = b := by
  apply String.ext
  exact charsLess_total a.data b.data (by simpa [stringLess] using h1)
    (by simpa [stringLess] using h2)

theorem mem_mapKeys_mapAssign {β : Type} (m : List (String × β)) (a : String) (v : β)
    (k : String) : k ∈ mapKeys (mapAssign m a v) ↔ k = a ∨ k ∈ mapKeys m := by
  induction m with
  | nil => simp [mapAssign, mapKeys]
  | cons e rest ih =>
    obtain ⟨k', v'⟩ := e
    simp only [mapAssign]
    split_ifs with h1 h2
    · simp [mapKeys]
    · simp only [mapKeys, List.map_cons, List.mem_cons] at ih ⊢
      rw [ih]
      tauto
    · have hak : a = k' := stringLess_total a k' h1 h2
      subst hak
      simp [mapKeys]

theorem lookup_mapAssign_self {β : Type} (m : List (String × β)) (a : String) (v : β) :
    (mapAssign m a v).lookup a = some v := by
  induction m with
  | nil => simp [mapAssign, List.lookup]
  | cons e rest ih =>
    obtain ⟨k', v'⟩ := e
    simp only [mapAssign]
    split_ifs with h1 h2
    · simp [List.lookup]
    · have hne : (a == k') = false := by
        simpa using (stringLess_ne k' a h2).symm
      simp [List.lookup, hne, ih]
    · simp [List.lookup]

theorem lookup_mapAssign_ne {β : Type} (m : List (String × β)) (a : String) (v : β)
    (k : String) (hk : k ≠ a) : (mapAssign m a v).lookup k = m.lookup k := by
  have hka : (k == a) = false := by simpa using hk
  induction m with
  | nil => simp [mapAssign, List.lookup, hka]
  | cons e rest ih =>
    obtain ⟨k', v'⟩ := e
    simp only [mapAssign]
    split_ifs with h1 h2
    · simp [List.lookup, hka]
    · simp only [List.lookup, ih]
    · have hak : a = k' := stringLess_total a k' h1 h2
      subst hak
      simp [List.lookup, hka]

/-! ## The trade loop -/

theorem tradeStep_ok {G R : Type} (api : GraphApi G R) (nDates : Nat) (s s' : TradeLoopState G)
    (entry : String × Trade G) (h : tradeStep api nDates s entry = .ok s') :
    ∃ engine g2 tmp, entry.2.engine = some engine ∧
      engine.buildComputationGraph (api.setPrefix s.g (entry.1 ++ "_")) = .ok g2 ∧
      amcNpvNodeList api g2 engine.npvName nDates = .ok tmp ∧
      s' = { g := g2, amcNpvNodes := mapAssign s.amcNpvNodes entry.1 tmp,
             tradeNodeRanges := mapAssign s.tradeNodeRanges entry.1
               (api.size (api.setPrefix s.g (entry.1 ++ "_")), api.size g2) } := by
  unfold tradeStep at h
  cases he : entry.2.engine with
  | none => simp [he] at h
  | some engine =>
    simp only [he] at h
    cases hb : engine.buildComputationGraph (api.setPrefix s.g (entry.1 ++ "_")) with
    | error e => simp [hb] at h
    | ok g2 =>
      simp only [hb] at h
      cases ht : amcNpvNodeList api g2 engine.npvName nDates with
      | error e => simp [ht] at h
      | ok tmp =>
        simp only [ht, Except.ok.injEq] at h
        exact ⟨engine, g2, tmp, rfl, hb, ht, h.symm⟩

theorem tradeLoop_cons {G R : Type} (api : GraphApi G R) (nDates : Nat)
    (entry : String × Trade G) (rest : List (String × Trade G)) (s : TradeLoopState G) :
    tradeLoop api nDates (entry :: rest) s
      = (tradeStep api nDates s entry).bind (tradeLoop api nDates rest) := by
  simp [tradeLoop, List.foldlM_cons]
  rfl

theorem tradeLoop_append {G R : Type} (api : GraphApi G R) (nDates : Nat)
    (l1 l2 : List (String × Trade G)) (s : TradeLoopState G) :
    tradeLoop api nDates (l1 ++ l2) s
      = (tradeLoop api nDates l1 s).bind (tradeLoop api nDates l2) := by
  simp [tradeLoop, List.foldlM_append]
  rfl

theorem tradeLoop_lookup_of_not_mem {G R : Type} (api : GraphApi G R) (nDates : Nat)
    (key : String) (trades : List (String × Trade G)) :
    ∀ s sN, tradeLoop api nDates trades s = .ok sN → key ∉ mapKeys trades →
      sN.amcNpvNodes.lookup key = s.amcNpvNodes.lookup key ∧
      sN.tradeNodeRanges.lookup key = s.tradeNodeRanges.lookup key := by
  induction trades with
  | nil =>
    intro s sN h _
    simp only [tradeLoop, List.foldlM_nil, pure, Except.pure, Except.ok.injEq] at h
    subst h
    exact ⟨rfl, rfl⟩
  | cons entry rest ih =>
    intro s sN h hkey
    rw [tradeLoop_cons] at h
    cases hs : tradeStep api nDates s entry with
    | error e => simp [hs, Except.bind] at h
    | ok s1 =>
      simp only [hs, Except.bind] at h
      have hk1 : key ≠ entry.1 := by
        intro hc
        exact hkey (by simp [mapKeys, hc])
      have hk2 : key ∉ mapKeys rest := by
        intro hc
        exact hkey (by simp only [mapKeys, List.map_cons, List.mem_cons]; exact Or.inr hc)
      obtain ⟨engine, g2, tmp, -, -, -, hs1⟩ := tradeStep_ok api nDates s s1 entry hs
      obtain ⟨h1, h2⟩ := ih s1 sN h hk2
      rw [h1, h2, hs1]
      exact ⟨lookup_mapAssign_ne _ _ _ _ hk1, lookup_mapAssign_ne _ _ _ _ hk1⟩

theorem tradeLoop_keys {G R : Type} (api : GraphApi G R) (nDates : Nat)
    (key : String) (trades : List (String × Trade G)) :
    ∀ s sN, tradeLoop api nDates trades s = .ok sN →
      (key ∈ mapKeys sN.amcNpvNodes ↔ key ∈ mapKeys s.amcNpvNodes ∨ key ∈ mapKeys trades) ∧
      (key ∈ mapKeys sN.tradeNodeRanges ↔
        key ∈ mapKeys s.tradeNodeRanges ∨ key ∈ mapKeys trades) := by
  induction trades with
  | nil =>
    intro s sN h
    simp only [tradeLoop, List.foldlM_nil, pure, Except.pure, Except.ok.injEq] at h
    subst h
    simp [mapKeys]
  | cons entry rest ih =>
    intro s sN h
    rw [tradeLoop_cons] at h
    cases hs : tradeStep api nDates s entry with
    | error e => simp [hs, Except.bind] at h
    | ok s1 =>
      simp only [hs, Except.bind] at h
      obtain ⟨engine, g2, tmp, -, -, -, hs1⟩ := tradeStep_ok api nDates s s1 entry hs
      obtain ⟨h1, h2⟩ := ih s1 sN h
      rw [h1, h2, hs1]
      simp only [mem_mapKeys_mapAssign]
      simp only [mapKeys, List.map_cons, List.mem_cons]
      constructor <;> tauto

/-- The trace of the trade loop at position `k`. -/
theorem tradeLoop_trace {G R : Type} (api : GraphApi G R) (nDates : Nat)
    (trades : List (String × Trade G)) (s0 sN : TradeLoopState G)
    (hrun : tradeLoop api nDates trades s0 = .ok sN) (k : Nat) (hk : k < trades.length) :
    ∃ engine sPrev g2 tmp,
      (trades[k]).2.engine = some engine ∧
      tradeLoop api nDates (trades.take k) s0 = .ok sPrev ∧
      engine.buildComputationGraph (api.setPrefix sPrev.g ((trades[k]).1 ++ "_")) = .ok g2 ∧
      amcNpvNodeList api g2 engine.npvName nDates = .ok tmp ∧
      ((trades[k]).1 ∉ mapKeys (trades.drop (k + 1)) →
        sN.amcNpvNodes.lookup (trades[k]).1 = some tmp ∧
        sN.tradeNodeRanges.lookup (trades[k]).1
          = some (api.size (api.setPrefix sPrev.g ((trades[k]).1 ++ "_")), api.size g2)) := by
  have hsplit : trades = trades.take k ++ trades[k] :: trades.drop (k + 1) := by
    rw [← List.drop_eq_getElem_cons hk, List.take_append_drop]
  rw [hsplit, tradeLoop_append] at hrun
  cases hp : tradeLoop api nDates (trades.take k) s0 with
  | error e => simp [hp, Except.bind] at hrun
  | ok sPrev =>
    simp only [hp, Except.bind] at hrun
    rw [tradeLoop_cons] at hrun
    cases hs : tradeStep api nDates sPrev trades[k] with
    | error e => simp [hs, Except.bind] at hrun
    | ok s1 =>
      simp only [hs, Except.bind] at hrun
      obtain ⟨engine, g2, tmp, he, hb, ht, hs1⟩ := tradeStep_ok api nDates sPrev s1 _ hs
      refine ⟨engine, sPrev, g2, tmp, he, rfl, hb, ht, ?_⟩
      intro hnot
      obtain ⟨h1, h2⟩ := tradeLoop_lookup_of_not_mem api nDates _ _ s1 sN hrun hnot
      rw [h1, h2, hs1]
      exact ⟨lookup_mapAssign_self _ _ _, lookup_mapAssign_self _ _ _⟩

theorem not_mem_drop_of_nodup {α : Type} (l : List α) (hnd : l.Nodup) (k : Nat)
    (hk : k < l.length) : l[k] ∉ l.drop (k + 1) := by
  intro hmem
  obtain ⟨j, hj, hjeq⟩ := List.getElem_of_mem hmem
  rw [List.getElem_drop] at hjeq
  have hlen : k + 1 + j < l.length := by
    simp only [List.length_drop] at hj
    omega
  have := (@List.Nodup.getElem_inj_iff _ l hnd (k + 1 + j) hlen k hk).mp hjeq
  omega

theorem amcNpvNodeList_ok {G R : Type} (api : GraphApi G R) (g : G) (npvName : String)
    (nDates : Nat) (tmp : List Nat) (h : amcNpvNodeList api g npvName nDates = .ok tmp) :
    tmp.length = nDates + 1 ∧
    (∃ n0, api.graphVariable g (npvName ++ "_0") = .ok n0 ∧ tmp[0]? = some n0) ∧
    ∀ i, i < nDates →
      ∃ n, api.graphVariable g ("_AMC_NPV_" ++ toString i) = .ok n ∧ tmp[i + 1]? = some n := by
  unfold amcNpvNodeList at h
  cases h0 : api.graphVariable g (npvName ++ "_0") with
  | error e => simp [h0] at h
  | ok n0 =>
    simp only [h0] at h
    have key := forLoop_ok_invariant _
      (fun i (t : List Nat) => t.length = i + 1 ∧ t[0]? = some n0 ∧
        ∀ j, j < i → ∃ n, api.graphVariable g ("_AMC_NPV_" ++ toString j) = .ok n ∧
          t[j + 1]? = some n)
      nDates [n0] ⟨rfl, rfl, fun j hj => absurd hj (Nat.not_lt_zero j)⟩ ?_ tmp h
    · exact ⟨key.1, ⟨n0, rfl, key.2.1⟩, key.2.2⟩
    · intro i t t' _ ⟨hlen, hzero, hrest⟩ hbody
      cases hv : api.graphVariable g ("_AMC_NPV_" ++ toString i) with
      | error e => simp [hv] at hbody
      | ok n =>
        simp only [hv, Except.ok.injEq] at hbody
        subst hbody
        refine ⟨by simp [hlen], ?_, ?_⟩
        · rw [List.getElem?_append_left (by omega)]
          exact hzero
        · intro j hj
          by_cases hji : j < i
          · obtain ⟨m, hm1, hm2⟩ := hrest j hji
            refine ⟨m, hm1, ?_⟩
            rw [List.getElem?_append_left (by omega)]
            exact hm2
          · have hjeq : j = i := by omega
            subst hjeq
            refine ⟨n, hv, ?_⟩
            rw [List.getElem?_append_right (by omega)]
            simp [hlen]

theorem mem_mapKeys_addCopies {G : Type} (supplied : List (Trade G)) (i : Nat) (key : String) :
    ∀ pf : List (String × Trade G), key ∈ mapKeys (addCopies supplied i pf) ↔
      key ∈ mapKeys pf ∨ ∃ t ∈ supplied, key = t.id ++ ("_" ++ toString (i + 1)) := by
  induction supplied with
  | nil => intro pf; simp [addCopies]
  | cons t rest ih =>
    intro pf
    have := ih (mapAssign pf (t.id ++ ("_" ++ toString (i + 1)))
      { t with id := t.id ++ ("_" ++ toString (i + 1)) })
    simp only [addCopies, List.foldl_cons] at this ⊢
    rw [this, mem_mapKeys_mapAssign]
    simp only [List.mem_cons, exists_eq_or_imp]
    tauto

theorem mem_mapKeys_duplicatePortfolio {G : Type} (supplied : List (Trade G)) (key : String)
    (n : Nat) : key ∈ mapKeys (duplicatePortfolio supplied n) ↔
      ∃ t ∈ supplied, ∃ i, i < n ∧ key = t.id ++ ("_" ++ toString (i + 1)) := by
  induction n with
  | zero => simp [duplicatePortfolio, mapKeys]
  | succ k ih =>
    simp only [duplicatePortfolio, mem_mapKeys_addCopies, ih]
    constructor
    · rintro (⟨t, ht, i, hi, hkey⟩ | ⟨t, ht, hkey⟩)
      · exact ⟨t, ht, i, Nat.lt_succ_of_lt hi, hkey⟩
      · exact ⟨t, ht, k, Nat.lt_succ_self k, hkey⟩
    · rintro ⟨t, ht, i, hi, hkey⟩
      by_cases hik : i < k
      · exact Or.inl ⟨t, ht, i, hik, hkey⟩
      · have : i = k := by omega
        subst this
        exact Or.inr ⟨t, ht, hkey⟩

/-! ## The example contributor -/

theorem append_nodes {R : Type} (g g' : ComputationGraph R) (operatorKind idx : Nat)
    (inputIndices : List Nat) (label : Option String)
    (h : g.append operatorKind inputIndices label = .ok (g', idx)) :
    idx = g.size ∧ g'.constantPool = g.constantPool ∧ g'.labelPrefix = g.labelPrefix ∧
    (inputIndices.all (fun i => decide (i < g.size)) = true) ∧
    g'.nodes = g.nodes ++
      [{ operatorKind := operatorKind, inputs := inputIndices,
         label := label.map (fun l => g.labelPrefix ++ l) }] := by
  unfold ComputationGraph.append at h
  simp only at h
  split_ifs at h with h1 h2
  simp only [Except.ok.injEq, Prod.mk.injEq] at h
  obtain ⟨hg, hidx⟩ := h
  subst hg
  exact ⟨hidx.symm, rfl, rfl, by simpa using h1, rfl⟩

theorem appendNode_size (g g' : ComputationGraph Int) (operatorKind : Nat)
    (inputIndices : List Nat) (label : Option String)
    (h : appendNode g operatorKind inputIndices label = .ok g') : g'.size = g.size + 1 := by
  unfold appendNode at h
  cases hr : g.append operatorKind inputIndices label with
  | error e => simp [hr] at h
  | ok r =>
    obtain ⟨g1, idx⟩ := r
    simp only [hr, Except.ok.injEq] at h
    subst h
    have := (append_nodes g g1 operatorKind idx inputIndices label hr).2.2.2.2
    simp [ComputationGraph.size, this]

theorem exampleEngine_size (g g' : ComputationGraph Int)
    (h : exampleEngine.buildComputationGraph g = .ok g') : g'.size = g.size + 4 := by
  simp only [exampleEngine] at h
  cases h1 : appendNode g 0 [] (some "x") with
  | error e => simp [h1, Except.bind] at h
  | ok g1 =>
    simp only [h1, Except.bind] at h
    cases h2 : appendNode g1 0 [g.size] (some "npv_0") with
    | error e => simp [h2] at h
    | ok g2 =>
      simp only [h2] at h
      cases h3 : appendNode g2 0 [g.size] (some "_AMC_NPV_0") with
      | error e => simp [h3] at h
      | ok g3 =>
        simp only [h3] at h
        have e1 := appendNode_size _ _ _ _ _ h1
        have e2 := appendNode_size _ _ _ _ _ h2
        have e3 := appendNode_size _ _ _ _ _ h3
        have e4 := appendNode_size _ _ _ _ _ h
        omega

/-! ## Stage 6 and stage 7: the value vector -/

theorem valuesShape_get {R : Type} (gSize modelSize : Nat) (values : List (RandomVariable R))
    (h : ValuesShape gSize modelSize values) (node : Nat) (hnode : node < gSize) :
    ∃ x, values[node]? = some x ∧ x.size = modelSize := by
  have hlt : node < values.length := by rw [h.1]; exact hnode
  exact ⟨values[node], List.getElem?_eq_getElem hlt, h.2 _ (List.getElem_mem hlt)⟩

theorem valuesShape_set {R : Type} (gSize modelSize : Nat) (values : List (RandomVariable R))
    (h : ValuesShape gSize modelSize values) (node : Nat) (y : RandomVariable R)
    (hy : y.size = modelSize) : ValuesShape gSize modelSize (values.set node y) := by
  refine ⟨by simpa using h.1, ?_⟩
  intro x hx
  rcases List.mem_or_eq_of_mem_set hx with hmem | heq
  · exact h.2 x hmem
  · rw [heq]; exact hy

theorem valuesShape_replicate {R : Type} (gSize modelSize : Nat) (v : R) :
    ValuesShape gSize modelSize (List.replicate gSize (RandomVariable.ofValue modelSize v)) := by
  refine ⟨by simp, ?_⟩
  intro x hx
  rw [List.eq_of_mem_replicate hx]
  simp [RandomVariable.ofValue, RandomVariable.size]

theorem slotAt_set {R : Type} (values : List (RandomVariable R)) (node path : Nat)
    (x : RandomVariable R) (v : R) (hx : values[node]? = some x) (hpath : path < x.size)
    (node' p' : Nat) :
    slotAt (values.set node { data := x.data.set path v }) node' p'
      = if node' = node ∧ p' = path then some v else slotAt values node' p' := by
  have hlt : node < values.length := by
    obtain ⟨h, -⟩ := List.getElem?_eq_some.mp hx
    exact h
  unfold slotAt
  by_cases hnode : node' = node
  · subst hnode
    rw [List.getElem?_set_self hlt, hx]
    by_cases hp : p' = path
    · subst hp
      simp only [and_self, if_true]
      exact List.getElem?_set_self hpath
    · simp only [hp, and_false, if_false]
      exact List.getElem?_set_ne (Ne.symm hp)
  · rw [List.getElem?_set_ne (Ne.symm hnode)]
    simp [hnode]

theorem setVariate_ok {R : Type} (rv : List (List Nat)) (value : List (List R))
    (path j k node : Nat) (values : List (RandomVariable R)) (x : RandomVariable R) (v : R)
    (hn : variateNode rv k j = some node) (hx : values[node]? = some x)
    (hv : drawValue value j k = some v) (hp : path < x.size) :
    setVariate rv value path j k values
      = .ok (values.set node { data := x.data.set path v }) := by
  have hlt : node < values.length := by
    obtain ⟨h, -⟩ := List.getElem?_eq_some.mp hx
    exact h
  simp [setVariate, hn, hx, hv, RandomVariable.set, hp, assignAt, hlt]

theorem setVariate_inv {R : Type} (rv : List (List Nat)) (value : List (List R))
    (path j k : Nat) (values values' : List (RandomVariable R))
    (h : setVariate rv value path j k values = .ok values') :
    ∃ node x v, variateNode rv k j = some node ∧ values[node]? = some x ∧
      drawValue value j k = some v ∧ path < x.size ∧
      values' = values.set node { data := x.data.set path v } := by
  unfold setVariate at h
  cases hn : variateNode rv k j with
  | none => simp [hn] at h
  | some node =>
    simp only [hn] at h
    cases hx : values[node]? with
    | none => simp [hx] at h
    | some x =>
      simp only [hx] at h
      cases hv : drawValue value j k with
      | none => simp [hv] at h
      | some v =>
        simp only [hv] at h
        by_cases hp : path < x.size
        · have hlt : node < values.length := by
            obtain ⟨h', -⟩ := List.getElem?_eq_some.mp hx
            exact h'
          simp only [RandomVariable.set, hp, if_true, assignAt, hlt, Except.ok.injEq] at h
          exact ⟨node, x, v, rfl, hx, rfl, hp, h.symm⟩
        · simp [RandomVariable.set, hp] at h

theorem variateNode_some (rv : List (List Nat)) (steps : Nat)
    (hrows : ∀ row ∈ rv, steps ≤ row.length) (k j : Nat) (hk : k < rv.length) (hj : j < steps) :
    ∃ node, variateNode rv k j = some node := by
  have hrow := hrows rv[k] (List.getElem_mem hk)
  have hjlt : j < (rv[k]).length := by omega
  exact ⟨(rv[k])[j], by simp [variateNode, List.getElem?_eq_getElem hk,
    List.getElem?_eq_getElem hjlt]⟩
theorem variatesWritten_mono {R : Type} (rv : List (List Nat)) (draws : Nat → List (List R))
    (steps modelSize gSize a b c a' b' c' : Nat) (values : List (RandomVariable R))
    (h : VariatesWritten rv draws steps modelSize gSize a b c values)
    (hle : ∀ p j k, j < steps → k < rv.length →
      writtenBefore p j k a' b' c' → writtenBefore p j k a b c) :
    VariatesWritten rv draws steps modelSize gSize a' b' c' values :=
  ⟨h.1, fun p j k hp hj hk hb => h.2 p j k hp hj hk (hle p j k hj hk hb)⟩

theorem variatesWritten_step {R : Type} (rv : List (List Nat)) (draws : Nat → List (List R))
    (steps modelSize gSize : Nat)
    (hrows : ∀ row ∈ rv, steps ≤ row.length)
    (hrange : ∀ k j node, j < steps → variateNode rv k j = some node → node < gSize)
    (hdistinct : ∀ k j k' j' node, j < steps → j' < steps →
      variateNode rv k j = some node → variateNode rv k' j' = some node → k = k' ∧ j = j')
    (hdraws : ∀ p j k, p < modelSize → j < steps → k < rv.length →
      ∃ v, drawValue (draws p) j k = some v)
    (np nj nk : Nat) (hnp : np < modelSize) (hnj : nj < steps) (hnk : nk < rv.length)
    (values : List (RandomVariable R))
    (hinv : VariatesWritten rv draws steps modelSize gSize np nj nk values) :
    ∃ values', setVariate rv (draws np) np nj nk values = .ok values' ∧
      VariatesWritten rv draws steps modelSize gSize np nj (nk + 1) values' := by
  obtain ⟨node, hnode⟩ := variateNode_some rv steps hrows nk nj hnk hnj
  obtain ⟨x, hx, hxsize⟩ := valuesShape_get gSize modelSize values hinv.1 node
    (hrange nk nj node hnj hnode)
  obtain ⟨v, hv⟩ := hdraws np nj nk hnp hnj hnk
  have hpath : np < x.size := by rw [hxsize]; exact hnp
  refine ⟨_, setVariate_ok rv (draws np) np nj nk node values x v hnode hx hv hpath, ?_, ?_⟩
  · apply valuesShape_set gSize modelSize values hinv.1
    simpa [RandomVariable.size] using hxsize
  · intro p j k hp hj hk hbefore
    obtain ⟨node', hnode'⟩ := variateNode_some rv steps hrows k j hk hj
    obtain ⟨v', hv'⟩ := hdraws p j k hp hj hk
    refine ⟨node', v', hnode', hv', ?_⟩
    rw [slotAt_set values node np x v hx hpath]
    by_cases hsame : node' = node ∧ p = np
    · obtain ⟨hn, hpe⟩ := hsame
      subst hn hpe
      obtain ⟨hk', hj'⟩ := hdistinct k j nk nj node' hj hnj hnode' hnode
      subst hk' hj'
      simp only [and_self, if_true]
      rw [← hv, hv']
    · rw [if_neg hsame]
      have hold : writtenBefore p j k np nj nk := by
        unfold writtenBefore at hbefore ⊢
        by_contra hnot
        have hpe : p = np := by omega
        have hje : j = nj := by omega
        have hke : k = nk := by omega
        subst hpe hje hke
        rw [hnode] at hnode'
        exact hsame ⟨(Option.some.inj hnode').symm, rfl⟩
      obtain ⟨node2, v2, hn2, hv2, hs2⟩ := hinv.2 p j k hp hj hk hold
      rw [hnode'] at hn2
      rw [hv'] at hv2
      rw [Option.some.inj hn2, Option.some.inj hv2]
      exact hs2

theorem setPath_written {R : Type} (rv : List (List Nat)) (draws : Nat → List (List R))
    (steps modelSize gSize : Nat)
    (hrows : ∀ row ∈ rv, steps ≤ row.length)
    (hrange : ∀ k j node, j < steps → variateNode rv k j = some node → node < gSize)
    (hdistinct : ∀ k j k' j' node, j < steps → j' < steps →
      variateNode rv k j = some node → variateNode rv k' j' = some node → k = k' ∧ j = j')
    (hdraws : ∀ p j k, p < modelSize → j < steps → k < rv.length →
      ∃ v, drawValue (draws p) j k = some v)
    (np : Nat) (hnp : np < modelSize) (values : List (RandomVariable R))
    (hinv : VariatesWritten rv draws steps modelSize gSize np 0 0 values) :
    ∃ values', setPath rv steps (draws np) np values = .ok values' ∧
      VariatesWritten rv draws steps modelSize gSize (np + 1) 0 0 values' := by
  have hloop := forLoop_invariant
    (fun j vals => forLoop rv.length (fun k vals => setVariate rv (draws np) np j k vals) vals)
    (fun j vals => VariatesWritten rv draws steps modelSize gSize np j 0 vals)
    steps values hinv ?_
  · obtain ⟨values', hrun, hfin⟩ := hloop
    refine ⟨values', hrun, variatesWritten_mono rv draws steps modelSize gSize _ _ _ _ _ _ values'
      hfin ?_⟩
    intro p j k hj _ hb
    unfold writtenBefore at hb ⊢
    omega
  · intro j vals hj hvals
    have hinner := forLoop_invariant (fun k vals => setVariate rv (draws np) np j k vals)
      (fun k vals => VariatesWritten rv draws steps modelSize gSize np j k vals)
      rv.length vals hvals
      (fun k v hk hv => variatesWritten_step rv draws steps modelSize gSize hrows hrange
        hdistinct hdraws np j k hnp hj hk v hv)
    obtain ⟨vals', hrun, hfin⟩ := hinner
    refine ⟨vals', hrun, variatesWritten_mono rv draws steps modelSize gSize _ _ _ _ _ _ vals'
      hfin ?_⟩
    intro p j' k _ hk hb
    unfold writtenBefore at hb ⊢
    omega

theorem assignAll {α ε : Type} (idx : ε → Nat) (val : ε → α) (l : List ε) (values : List α)
    (hrange : ∀ e ∈ l, idx e < values.length)
    (hfun : ∀ e ∈ l, ∀ e' ∈ l, idx e = idx e' → val e = val e') :
    ∃ values', l.foldlM (fun vals e => assignAt vals (idx e) (val e)) values = .ok values' ∧
      values'.length = values.length ∧
      (∀ e ∈ l, values'[idx e]? = some (val e)) ∧
      (∀ n, (∀ e ∈ l, idx e ≠ n) → values'[n]? = values[n]?) ∧
      (∀ y ∈ values', y ∈ values ∨ ∃ e ∈ l, y = val e) := by
  have key := foldlM_invariant (fun vals e => assignAt vals (idx e) (val e))
    (fun d (vals : List α) => (∀ e ∈ d, e ∈ l) ∧ vals.length = values.length ∧
      (∀ e ∈ d, vals[idx e]? = some (val e)) ∧
      (∀ n, (∀ e ∈ d, idx e ≠ n) → vals[n]? = values[n]?) ∧
      (∀ y ∈ vals, y ∈ values ∨ ∃ e ∈ d, y = val e))
    l [] values ?_ ?_
  · obtain ⟨values', hrun, -, hlen, hset, hother, hmem⟩ := key
    exact ⟨values', hrun, hlen, by simpa using hset, by simpa using hother, by simpa using hmem⟩
  · refine ⟨by simp, rfl, by simp, fun n _ => rfl, fun y hy => Or.inl hy⟩
  · intro d x vals hx ⟨hsub, hlen, hset, hother, hmem⟩
    have hlt : idx x < vals.length := by rw [hlen]; exact hrange x hx
    refine ⟨vals.set (idx x) (val x), assignAt_ok vals _ _ hlt, ?_, by simpa using hlen,
      ?_, ?_, ?_⟩
    · intro e he
      rcases List.mem_append.mp he with h | h
      · exact hsub e h
      · rw [List.mem_singleton.mp h]; exact hx
    · intro e he
      by_cases hidx : idx x = idx e
      · have hval : val x = val e := by
          apply hfun x hx e _ hidx
          rcases List.mem_append.mp he with h | h
          · exact hsub e h
          · rw [List.mem_singleton.mp h]; exact hx
        rw [← hidx, List.getElem?_set_self hlt, hval]
      · rw [List.getElem?_set_ne hidx]
        rcases List.mem_append.mp he with h | h
        · exact hset e h
        · rw [List.mem_singleton.mp h] at hidx
          exact absurd rfl hidx
    · intro n hn
      have hxn : idx x ≠ n := hn x (by simp)
      rw [List.getElem?_set_ne hxn]
      exact hother n (fun e he => hn e (by simp [he]))
    · intro y hy
      rcases List.mem_or_eq_of_mem_set hy with h | h
      · rcases hmem y h with h1 | ⟨e, he, hye⟩
        · exact Or.inl h1
        · exact Or.inr ⟨e, by simp [he], hye⟩
      · exact Or.inr ⟨x, by simp, h⟩

theorem setPath_shape {R : Type} (rv : List (List Nat)) (steps : Nat) (value : List (List R))
    (path gSize modelSize : Nat) (values values' : List (RandomVariable R))
    (hshape : ValuesShape gSize modelSize values)
    (h : setPath rv steps value path values = .ok values') :
    ValuesShape gSize modelSize values' := by
  refine forLoop_ok_invariant _ (fun _ vals => ValuesShape gSize modelSize vals) steps values
    hshape ?_ values' h
  intro j vals vals' _ hvals hinner
  refine forLoop_ok_invariant _ (fun _ v => ValuesShape gSize modelSize v) rv.length vals
    hvals ?_ vals' hinner
  intro k v v' _ hv hset
  obtain ⟨node, x, w, -, hx, -, hp, hv'⟩ := setVariate_inv rv value path j k v v' hset
  rw [hv']
  apply valuesShape_set gSize modelSize v hv
  have hxs : x.size = modelSize := hv.2 x (List.getElem?_mem hx)
  simpa [RandomVariable.size] using hxs

theorem populateRandomVariates_shape {S O D R : Type} [Zero R]
    (makeMultiPathVariateGenerator : GeneratorFactory S O D R) (data : GeneratorData S O D)
    (rv : List (List Nat)) (modelSize gSize : Nat) (values : List (RandomVariable R))
    (gen : Option (MultiPathVariateGenerator R))
    (h : populateRandomVariates makeMultiPathVariateGenerator data rv modelSize gSize
      = .ok (values, gen)) : ValuesShape gSize modelSize values := by
  unfold populateRandomVariates at h
  cases rv with
  | nil =>
    simp only [Except.ok.injEq, Prod.mk.injEq] at h
    rw [← h.1]
    exact valuesShape_replicate gSize modelSize 0
  | cons front rest =>
    simp only at h
    generalize makeMultiPathVariateGenerator data.sequenceType (front :: rest).length
      front.length data.seed data.ordering data.directionIntegers = gen0 at h
    cases hloop : forLoop modelSize (pathStep (front :: rest) front.length)
        { values := List.replicate gSize (RandomVariable.ofValue modelSize (0 : R)),
          gen := gen0 } with
    | error e => simp [hloop] at h
    | ok s =>
      simp only [hloop, Except.ok.injEq, Prod.mk.injEq] at h
      rw [← h.1]
      refine forLoop_ok_invariant _
        (fun _ (t : VariateState R) => ValuesShape gSize modelSize t.values) modelSize _
        (valuesShape_replicate gSize modelSize 0) ?_ s hloop
      intro path t t' _ ht hstep
      unfold pathStep at hstep
      cases hp : setPath (front :: rest) front.length t.gen.next.1 path t.values with
      | error e => simp [hp] at hstep
      | ok vals =>
        simp only [hp, Except.ok.injEq] at hstep
        rw [← hstep]
        exact setPath_shape _ _ _ _ _ _ _ _ ht hp

theorem exampleLayout_node (k j node : Nat) (h : variateNode [[0], [2]] k j = some node) :
    (k = 0 ∧ j = 0 ∧ node = 0) ∨ (k = 1 ∧ j = 0 ∧ node = 2) := by
  match k, j with
  | 0, 0 => simp [variateNode] at h; omega
  | 0, j + 1 => simp [variateNode] at h
  | 1, 0 => simp [variateNode] at h; omega
  | 1, j + 1 => simp [variateNode] at h
  | k + 2, j => simp [variateNode] at h

theorem pathStep_inv {R : Type} (rv : List (List Nat)) (steps path : Nat)
    (s s' : VariateState R) (h : pathStep rv steps path s = .ok s') :
    setPath rv steps (s.gen.draws s.gen.cursor) path s.values = .ok s'.values ∧
    s'.gen = { s.gen with cursor := s.gen.cursor + 1 } := by
  unfold pathStep at h
  cases hp : setPath rv steps s.gen.next.1 path s.values with
  | error e => simp [hp] at h
  | ok vals =>
    simp only [hp, Except.ok.injEq] at h
    rw [← h]
    exact ⟨hp, rfl⟩

theorem exampleGraph_built : ComputationGraph.Built exampleGraph := by
  have h0 : ComputationGraph.Built
      ((ComputationGraph.empty : ComputationGraph Int).setPrefix "T_1_") :=
    ComputationGraph.Built.setPrefix "T_1_" ComputationGraph.Built.empty
  have h1 := ComputationGraph.Built.append 0 [] (some "x") h0 rfl
  have h2 := ComputationGraph.Built.append 0 [0] (some "npv_0") h1 rfl
  have h3 := ComputationGraph.Built.append 0 [0] (some "_AMC_NPV_0") h2 rfl
  exact ComputationGraph.Built.append 1 [0, 2] (some "_AMC_NPV_1") h3 rfl

/-! ## The forward evaluator -/

theorem forLoop_error {σ : Type} (body : Nat → σ → Except Fault σ) (P : Nat → σ → Prop)
    (n : Nat) (s : σ) (h0 : P 0 s)
    (step : ∀ i a b, i < n → P i a → body i a = .ok b → P (i + 1) b) (e : Fault)
    (herr : forLoop n body s = .error e) :
    ∃ i a, i < n ∧ P i a ∧ body i a = .error e := by
  induction n with
  | zero => simp [forLoop] at herr
  | succ k ih =>
    simp only [forLoop] at herr
    cases hk : forLoop k body s with
    | error e' =>
      simp only [hk, Except.bind, Except.error.injEq] at herr
      subst herr
      obtain ⟨i, a, hi, hp, hb⟩ := ih (fun i a b hi => step i a b (Nat.lt_succ_of_lt hi)) hk
      exact ⟨i, a, Nat.lt_succ_of_lt hi, hp, hb⟩
    | ok a =>
      simp only [hk, Except.bind] at herr
      exact ⟨k, a, Nat.lt_succ_self k,
        forLoop_ok_invariant body P k s h0 (fun i a b hi => step i a b (Nat.lt_succ_of_lt hi)) a hk,
        herr⟩

theorem le_foldl_max (l : List Nat) : ∀ a : Nat, a ≤ l.foldl max a ∧ ∀ x ∈ l, x ≤ l.foldl max a := by
  induction l with
  | nil => intro a; simp
  | cons y ys ih =>
    intro a
    obtain ⟨h1, h2⟩ := ih (max a y)
    simp only [List.foldl_cons, List.mem_cons]
    refine ⟨le_trans (le_max_left a y) h1, ?_⟩
    rintro x (rfl | hx)
    · exact le_trans (le_max_right a x) h1
    · exact h2 x hx

theorem le_lastUse_of_mem (nodes : List Node) (n i : Nat) (hi : i < nodes.length)
    (hmem : n ∈ nodeInputs nodes i) : i ≤ lastUse nodes n := by
  apply (le_foldl_max _ n).2
  simp [List.mem_filter, hi, hmem]

theorem length_releaseFrom {α : Type} (release : Nat → Bool) (l : List (Option α)) :
    ∀ start, (releaseFrom release start l).length = l.length := by
  induction l with
  | nil => intro start; rfl
  | cons v rest ih => intro start; simp [releaseFrom, ih]

theorem getElem?_releaseFrom {α : Type} (release : Nat → Bool) (l : List (Option α)) :
    ∀ start i : Nat, (releaseFrom release start l)[i]?
      = (l[i]?).map (fun v => if release (start + i) then none else v) := by
  induction l with
  | nil => intro start i; simp [releaseFrom]
  | cons v rest ih =>
    intro start i
    cases i with
    | zero => simp [releaseFrom]
    | succ j =>
      simp only [releaseFrom, List.getElem?_cons_succ]
      rw [ih (start + 1) j]
      have : start + 1 + j = start + (j + 1) := by omega
      rw [this]

theorem releasable_iff (nodes : List Node) (keepNodes : List Bool) (i p : Nat) :
    releasable nodes keepNodes i p = true ↔ releasedBefore nodes keepNodes (i + 1) p := by
  unfold releasable releasedBefore
  simp only [Bool.and_eq_true, decide_eq_true_eq, Bool.not_eq_true', Nat.lt_succ_iff]
  tauto

theorem releasedBefore_succ (nodes : List Node) (keepNodes : List Bool) (i p : Nat)
    (h : releasedBefore nodes keepNodes i p) : releasedBefore nodes keepNodes (i + 1) p :=
  ⟨Nat.lt_succ_of_lt h.1, Nat.lt_succ_of_lt h.2.1, h.2.2⟩

theorem gatherInputs_ok {R : Type} (store : List (Option (RandomVariable R)))
    (inputs : List Nat) (h : ∀ q ∈ inputs, ∃ x, store[q]? = some (some x)) :
    ∃ args, gatherInputs store inputs = .ok args := by
  induction inputs with
  | nil => exact ⟨[], rfl⟩
  | cons q rest ih =>
    obtain ⟨x, hx⟩ := h q (List.mem_cons_self q rest)
    obtain ⟨xs, hxs⟩ := ih (fun r hr => h r (List.mem_cons_of_mem q hr))
    exact ⟨x :: xs, by simp [gatherInputs, hx, hxs]⟩

theorem evaluateNode_input {R : Type} (ops : List (List (RandomVariable R) → RandomVariable R))
    (nodes : List Node) (i : Nat) (store : List (Option (RandomVariable R))) (nd : Node)
    (hn : nodes[i]? = some nd) (hin : nd.inputs = []) :
    evaluateNode ops nodes i store = .ok store := by
  simp [evaluateNode, hn, hin]

theorem evaluateNode_computed {R : Type}
    (ops : List (List (RandomVariable R) → RandomVariable R))
    (nodes : List Node) (i : Nat) (store : List (Option (RandomVariable R))) (nd : Node)
    (args : List (RandomVariable R)) (forward : List (RandomVariable R) → RandomVariable R)
    (hn : nodes[i]? = some nd) (hin : nd.inputs ≠ [])
    (hg : gatherInputs store nd.inputs = .ok args) (ho : ops[nd.operatorKind]? = some forward)
    (hlt : i < store.length) :
    evaluateNode ops nodes i store = .ok (store.set i (some (forward args))) := by
  simp [evaluateNode, hn, hin, hg, ho, assignAt, hlt]

theorem input_not_released (nodes : List Node) (keepNodes : List Bool) (i q : Nat) (nd : Node)
    (hi : i < nodes.length) (hn : nodes[i]? = some nd) (hq : q ∈ nd.inputs) :
    ¬ releasedBefore nodes keepNodes i q := by
  intro hrel
  have hmem : q ∈ nodeInputs nodes i := by simp [nodeInputs, hn, hq]
  have := le_lastUse_of_mem nodes q i hi hmem
  have := hrel.2.1
  omega

theorem evaluateNode_cases {R : Type} (ops : List (List (RandomVariable R) → RandomVariable R))
    (nodes : List Node) (keepNodes : List Bool) (i : Nat)
    (store : List (Option (RandomVariable R))) (hi : i < nodes.length)
    (hord : InputsPrecede nodes) (hb : StoreBound nodes keepNodes i store) :
    evaluateNode ops nodes i store = .error (.unknownOperator i) ∨
    ∃ store', evaluateNode ops nodes i store = .ok store' ∧ store'.length = nodes.length ∧
      (∀ p, p ≠ i → store'[p]? = store[p]?) ∧ ∃ x, store'[i]? = some (some x) := by
  have hn : nodes[i]? = some nodes[i] := List.getElem?_eq_getElem hi
  have hself : ¬ releasedBefore nodes keepNodes i i := fun h => absurd h.1 (Nat.lt_irrefl i)
  by_cases hin : (nodes[i]).inputs = []
  · exact Or.inr ⟨store, evaluateNode_input ops nodes i store _ hn hin, hb.1,
      fun _ _ => rfl, hb.2 i hi hself⟩
  · obtain ⟨args, hg⟩ := gatherInputs_ok store (nodes[i]).inputs (fun q hq =>
      hb.2 q (lt_trans (hord i _ hn q hq) hi) (input_not_released nodes keepNodes i q _ hi hn hq))
    have hlt : i < store.length := by rw [hb.1]; exact hi
    cases ho : ops[(nodes[i]).operatorKind]? with
    | none =>
      left
      simp [evaluateNode, hn, hin, hg, ho]
    | some forward =>
      right
      refine ⟨_, evaluateNode_computed ops nodes i store _ args forward hn hin hg ho hlt,
        by simpa using hb.1, fun p hp => List.getElem?_set_ne (Ne.symm hp), ?_⟩
      exact ⟨forward args, List.getElem?_set_self hlt⟩

theorem evaluationStep_bound {R : Type} (ops : List (List (RandomVariable R) → RandomVariable R))
    (nodes : List Node) (keepNodes : List Bool) (i : Nat)
    (store : List (Option (RandomVariable R))) (hi : i < nodes.length)
    (hord : InputsPrecede nodes) (hb : StoreBound nodes keepNodes i store) :
    evaluationStep ops nodes keepNodes i store = .error (.unknownOperator i) ∨
    ∃ store', evaluationStep ops nodes keepNodes i store = .ok store' ∧
      StoreBound nodes keepNodes (i + 1) store' := by
  rcases evaluateNode_cases ops nodes keepNodes i store hi hord hb with
    herr | ⟨store', hok, hlen, hother, x, hx⟩
  · left
    simp [evaluationStep, herr]
  · right
    refine ⟨releaseFrom (releasable nodes keepNodes i) 0 store',
      by simp only [evaluationStep, hok], ?_, ?_⟩
    · rw [length_releaseFrom, hlen]
    · intro p hp hnot
      have hrel : releasable nodes keepNodes i p = false := by
        cases hr : releasable nodes keepNodes i p with
        | false => rfl
        | true => exact absurd ((releasable_iff nodes keepNodes i p).mp hr) hnot
      rw [getElem?_releaseFrom]
      simp only [Nat.zero_add, hrel, Bool.false_eq_true, if_false]
      by_cases hpi : p = i
      · subst hpi
        exact ⟨x, by simp [hx]⟩
      · obtain ⟨y, hy⟩ := hb.2 p hp (fun h => hnot (releasedBefore_succ nodes keepNodes i p h))
        exact ⟨y, by simp [hother p hpi, hy]⟩
theorem storeBound_initial {R : Type} (nodes : List Node) (keepNodes : List Bool)
    (values : List (RandomVariable R)) (hlen : values.length = nodes.length) :
    StoreBound nodes keepNodes 0 (values.map some) := by
  refine ⟨by simpa using hlen, ?_⟩
  intro p hp _
  have hlt : p < values.length := by rw [hlen]; exact hp
  exact ⟨values[p], by simp [List.getElem?_eq_getElem hlt]⟩

theorem evaluationStep_ok_bound {R : Type}
    (ops : List (List (RandomVariable R) → RandomVariable R))
    (nodes : List Node) (keepNodes : List Bool) (hord : InputsPrecede nodes)
    (i : Nat) (a b : List (Option (RandomVariable R))) (hi : i < nodes.length)
    (ha : StoreBound nodes keepNodes i a) (hstep : evaluationStep ops nodes keepNodes i a = .ok b) :
    StoreBound nodes keepNodes (i + 1) b := by
  rcases evaluationStep_bound ops nodes keepNodes i a hi hord ha with herr | ⟨b', hok, hb'⟩
  · rw [herr] at hstep
    exact absurd hstep (by simp)
  · rw [hok] at hstep
    exact (Except.ok.inj hstep) ▸ hb'

theorem forwardEvaluation_error_kind {R : Type} (g : ComputationGraph R)
    (ops : List (List (RandomVariable R) → RandomVariable R))
    (values : List (RandomVariable R)) (keepNodes : List Bool)
    (hord : InputsPrecede g.nodes) (hlen : values.length = g.size) (e : Fault)
    (herr : forwardEvaluation g ops (values.map some) keepNodes = .error e) :
    ∃ n, e = .unknownOperator n := by
  obtain ⟨i, a, hi, ha, hb⟩ := forLoop_error (evaluationStep ops g.nodes keepNodes)
    (fun i store => StoreBound g.nodes keepNodes i store) g.size (values.map some)
    (storeBound_initial g.nodes keepNodes values hlen)
    (fun i a b hi ha hstep => evaluationStep_ok_bound ops g.nodes keepNodes hord i a b hi ha hstep)
    e herr
  rcases evaluationStep_bound ops g.nodes keepNodes i a hi hord ha with h | ⟨b', hok, -⟩
  · rw [h] at hb
    exact ⟨i, (Except.error.inj hb).symm⟩
  · rw [hok] at hb
    exact absurd hb (by simp)

theorem foldlM_ok_invariant {σ α : Type} (body : σ → α → Except Fault σ)
    (P : List α → σ → Prop) (todo : List α) :
    ∀ (done : List α) (s s' : σ), P done s →
      (∀ d x a b, x ∈ todo → P d a → body a x = .ok b → P (d ++ [x]) b) →
      todo.foldlM body s = .ok s' → P (done ++ todo) s' := by
  induction todo with
  | nil =>
    intro done s s' h _ hrun
    simp only [List.foldlM_nil, pure, Except.pure, Except.ok.injEq] at hrun
    rw [← hrun]
    simpa using h
  | cons x xs ih =>
    intro done s s' h step hrun
    rw [List.foldlM_cons] at hrun
    cases hb : body s x with
    | error e =>
      rw [hb] at hrun
      exact absurd hrun (by intro hc; cases hc)
    | ok s1 =>
      rw [hb] at hrun
      have := ih (done ++ [x]) s1 s' (step done x s s1 (List.mem_cons_self x xs) h hb)
        (fun d y a b hy => step d y a b (List.mem_cons_of_mem x hy)) hrun
      simpa using this

theorem assignAt_inv {α : Type} (v v' : List α) (i : Nat) (x : α)
    (h : assignAt v i x = .ok v') : i < v.length ∧ v' = v.set i x := by
  unfold assignAt at h
  by_cases hlt : i < v.length
  · simp only [hlt, if_true, Except.ok.injEq] at h
    exact ⟨hlt, h.symm⟩
  · simp [hlt] at h

theorem assignAll_ok_other {α ε : Type} (idx : ε → Nat) (val : ε → α) (l : List ε)
    (values values' : List α)
    (h : l.foldlM (fun vals e => assignAt vals (idx e) (val e)) values = .ok values') :
    values'.length = values.length ∧
    (∀ n, (∀ e ∈ l, idx e ≠ n) → values'[n]? = values[n]?) := by
  have key := foldlM_ok_invariant (fun vals e => assignAt vals (idx e) (val e))
    (fun d (vals : List α) => vals.length = values.length ∧
      (∀ n, (∀ e ∈ d, idx e ≠ n) → vals[n]? = values[n]?))
    l [] values values' ⟨rfl, fun _ _ => rfl⟩ ?_ h
  · simpa using key
  · intro d x a b _ ⟨hlen, hother⟩ hb
    obtain ⟨-, hset⟩ := assignAt_inv a b _ _ hb
    rw [hset]
    refine ⟨by simpa using hlen, ?_⟩
    intro n hn
    rw [List.getElem?_set_ne (hn x (by simp))]
    exact hother n (fun e he => hn e (by simp [he]))

theorem setPath_other {R : Type} (rv : List (List Nat)) (steps : Nat) (value : List (List R))
    (path n : Nat) (hn : ∀ k j, variateNode rv k j ≠ some n)
    (values values' : List (RandomVariable R))
    (h : setPath rv steps value path values = .ok values') : values'[n]? = values[n]? := by
  refine forLoop_ok_invariant _ (fun _ (vals : List (RandomVariable R)) => vals[n]? = values[n]?)
    steps values rfl ?_ values' h
  intro j vals vals' _ hvals hinner
  refine forLoop_ok_invariant _ (fun _ (v : List (RandomVariable R)) => v[n]? = values[n]?)
    rv.length vals hvals ?_ vals' hinner
  intro k v v' _ hv hset
  obtain ⟨node, x, w, hnode, -, -, -, hv'⟩ := setVariate_inv rv value path j k v v' hset
  rw [hv', List.getElem?_set_ne, hv]
  intro hc
  exact hn k j (hc ▸ hnode)

theorem populateRandomVariates_other {S O D R : Type} [Zero R]
    (makeMultiPathVariateGenerator : GeneratorFactory S O D R) (data : GeneratorData S O D)
    (rv : List (List Nat)) (modelSize gSize : Nat) (values : List (RandomVariable R))
    (gen : Option (MultiPathVariateGenerator R))
    (h : populateRandomVariates makeMultiPathVariateGenerator data rv modelSize gSize
      = .ok (values, gen))
    (n : Nat) (hn : ∀ k j, variateNode rv k j ≠ some n) :
    values[n]? = (List.replicate gSize (RandomVariable.ofValue modelSize (0 : R)))[n]? := by
  unfold populateRandomVariates at h
  cases rv with
  | nil =>
    simp only [Except.ok.injEq, Prod.mk.injEq] at h
    rw [← h.1]
  | cons front rest =>
    simp only at h
    generalize makeMultiPathVariateGenerator data.sequenceType (front :: rest).length
      front.length data.seed data.ordering data.directionIntegers = gen0 at h
    cases hloop : forLoop modelSize (pathStep (front :: rest) front.length)
        { values := List.replicate gSize (RandomVariable.ofValue modelSize (0 : R)),
          gen := gen0 } with
    | error e => simp [hloop] at h
    | ok s =>
      simp only [hloop, Except.ok.injEq, Prod.mk.injEq] at h
      rw [← h.1]
      refine forLoop_ok_invariant _
        (fun _ (t : VariateState R) => t.values[n]?
          = (List.replicate gSize (RandomVariable.ofValue modelSize (0 : R)))[n]?)
        modelSize _ rfl ?_ s hloop
      intro path t t' _ ht hstep
      obtain ⟨hp, -⟩ := pathStep_inv _ _ _ _ _ hstep
      rw [setPath_other _ _ _ _ n hn _ _ hp]
      exact ht

theorem bindStage_inv {S O D R : Type} [Zero R]
    (makeMultiPathVariateGenerator : GeneratorFactory S O D R) (data : GeneratorData S O D)
    (model : ModelCG R) (g : ComputationGraph R) (boundValues : List (RandomVariable R))
    (h : bindStage makeMultiPathVariateGenerator data model g = .ok boundValues) :
    boundValues.length = g.size ∧
    ∀ n, n < g.size → (∀ k j, variateNode model.randomVariates k j ≠ some n) →
      (∀ c ∈ ComputationGraph.api.constants g, c.2 ≠ n) →
      (∀ p ∈ model.modelParameters, p.1 ≠ n) →
      boundValues[n]? = some (RandomVariable.ofValue model.size 0) := by
  unfold bindStage at h
  cases h6 : populateRandomVariates makeMultiPathVariateGenerator data model.randomVariates
      model.size g.size with
  | error e => simp [h6] at h
  | ok r =>
    obtain ⟨values6, gen⟩ := r
    simp only [h6] at h
    unfold populateConstantsAndParameters at h
    cases hc : (ComputationGraph.api.constants g).foldlM
        (fun vals c => assignAt vals c.2 (RandomVariable.ofValue model.size c.1)) values6 with
    | error e => simp [hc] at h
    | ok vals =>
      simp only [hc] at h
      have hshape := populateRandomVariates_shape _ _ _ _ _ _ _ h6
      obtain ⟨hlen1, hother1⟩ := assignAll_ok_other (fun c : R × Nat => c.2)
        (fun c => RandomVariable.ofValue model.size c.1) _ _ _ hc
      obtain ⟨hlen2, hother2⟩ := assignAll_ok_other (fun p : Nat × R => p.1)
        (fun p => RandomVariable.ofValue model.size p.2) _ _ _ h
      refine ⟨by rw [hlen2, hlen1, hshape.1], ?_⟩
      intro n hn hrv hconst hparam
      rw [hother2 n hparam, hother1 n hconst,
        populateRandomVariates_other _ _ _ _ _ _ _ h6 n hrv]
      simp [List.getElem?_replicate, hn]

theorem examplePricedGraph_order : InputsPrecede examplePricedGraph.nodes := by
  intro n node h i hi
  match n with
  | 0 =>
    simp only [examplePricedGraph, List.getElem?_cons_zero, Option.some.injEq] at h
    subst h
    simp at hi
  | 1 =>
    simp only [examplePricedGraph, List.getElem?_cons_succ, List.getElem?_cons_zero,
      Option.some.injEq] at h
    subst h
    simp at hi
  | 2 =>
    simp only [examplePricedGraph, List.getElem?_cons_succ, List.getElem?_cons_zero,
      Option.some.injEq] at h
    subst h
    simp at hi
    omega
  | 3 =>
    simp only [examplePricedGraph, List.getElem?_cons_succ, List.getElem?_cons_zero,
      Option.some.injEq] at h
    subst h
    simp at hi
    omega
  | n + 4 => simp [examplePricedGraph] at h

/-- C1. The retention bitmap `keepNodes` handed to `forwardEvaluation` has exactly `g->size()`
entries, and for every node index `n < g->size()` the flag `keepNodes[n]` is true if and only
if `n` occurs in the output node list of at least one trade. (The recorded nodes are indices of
the graph, so every subscript `keepNodes[n] = true` is in range and the stage completes.) -/
theorem keepNodes_iff_output_node (gSize : Nat) (amcNpvNodes : List (String × List Nat))
    (hrange : ∀ entry ∈ amcNpvNodes, ∀ n ∈ entry.2, n < gSize) :
    ∃ keepNodes, buildKeepNodes gSize amcNpvNodes = .ok keepNodes ∧
      keepNodes.length = gSize ∧
      ∀ n, n < gSize → (keepNodes[n]? = some true ↔ ∃ entry ∈ amcNpvNodes, n ∈ entry.2) := by
  have key := foldlM_invariant
    (fun keepNodes (entry : String × List Nat) =>
      entry.2.foldlM (fun keepNodes n => assignAt keepNodes n true) keepNodes)
    (fun d (keep : List Bool) => keep.length = gSize ∧
      ∀ n, n < gSize → (keep[n]? = some true ↔ ∃ e ∈ d, n ∈ e.2))
    amcNpvNodes [] (List.replicate gSize false) ?_ ?_
  · simpa [buildKeepNodes] using key
  · refine ⟨by simp, ?_⟩
    intro n hn
    simp [List.getElem?_replicate, hn]
  · intro d entry keep hentry ⟨hlen, hkeep⟩
    have inner := foldlM_invariant (fun keepNodes n => assignAt keepNodes n true)
      (fun dn (k : List Bool) => k.length = gSize ∧
        ∀ n, n < gSize → (k[n]? = some true ↔ (∃ e ∈ d, n ∈ e.2) ∨ n ∈ dn))
      entry.2 [] keep ?_ ?_
    · obtain ⟨k, hk, hlen', hk'⟩ := inner
      refine ⟨k, hk, hlen', ?_⟩
      intro n hn
      rw [hk' n hn]
      simp only [List.nil_append, List.mem_append, List.mem_singleton]
      constructor
      · rintro (⟨e, he, hne⟩ | hne)
        · exact ⟨e, Or.inl he, hne⟩
        · exact ⟨entry, Or.inr rfl, hne⟩
      · rintro ⟨e, he | rfl, hne⟩
        · exact Or.inl ⟨e, he, hne⟩
        · exact Or.inr hne
    · refine ⟨hlen, ?_⟩
      intro n hn
      simp [hkeep n hn]
    · intro dn m k hm ⟨hlen', hk'⟩
      have hmlt : m < k.length := by rw [hlen']; exact hrange entry hentry m hm
      refine ⟨k.set m true, assignAt_ok k m true hmlt, by simpa using hlen', ?_⟩
      intro n hn
      by_cases hnm : m = n
      · subst hnm
        simp [List.getElem?_set_self hmlt]
      · rw [List.getElem?_set_ne hnm, hk' n hn]
        simp only [List.mem_append, List.mem_singleton]
        constructor
        · rintro (h | h)
          · exact Or.inl h
          · exact Or.inr (Or.inl h)
        · rintro (h | h | h)
          · exact Or.inl h
          · exact Or.inr h
          · exact absurd h.symm hnm

/-- Witness of C1: a graph of four nodes and one trade whose output nodes are 1 and 3. -/
theorem keepNodes_iff_output_node_witness :
    (∀ entry ∈ [("T_1", [1, 3])], ∀ n ∈ entry.2, n < 4) ∧
    ∃ keepNodes, buildKeepNodes 4 [("T_1", [1, 3])] = .ok keepNodes ∧
      keepNodes.length = 4 ∧
      ∀ n, n < 4 → (keepNodes[n]? = some true ↔ ∃ entry ∈ [("T_1", [1, 3])], n ∈ entry.2) :=
  ⟨by decide, keepNodes_iff_output_node 4 [("T_1", [1, 3])] (by decide)⟩

/-! ## C2: the output node list of a trade -/

/-- C2. For every trade processed in the trade loop (position `k` of `portfolio_->trades()`,
whose keys are pairwise distinct), the output node list recorded under the trade's id has
exactly `simulationDates.size() + 1` entries: entry 0 is the node of the variable
`npvName() + "_0"` and entry `i + 1` is the node of the variable `"_AMC_NPV_" + i`, for every
`i < simulationDates.size()`, looked up in the graph as it is after the trade's contribution. -/
theorem amcNpvNodes_per_trade {G R : Type} (api : GraphApi G R) (nDates : Nat)
    (trades : List (String × Trade G)) (s0 sN : TradeLoopState G)
    (hkeys : (mapKeys trades).Nodup)
    (hrun : tradeLoop api nDates trades s0 = .ok sN) (k : Nat) (hk : k < trades.length) :
    ∃ engine sPrev g2 tmp,
      (trades[k]).2.engine = some engine ∧
      tradeLoop api nDates (trades.take k) s0 = .ok sPrev ∧
      engine.buildComputationGraph (api.setPrefix sPrev.g ((trades[k]).1 ++ "_")) = .ok g2 ∧
      sN.amcNpvNodes.lookup (trades[k]).1 = some tmp ∧
      tmp.length = nDates + 1 ∧
      (∃ n0, api.graphVariable g2 (engine.npvName ++ "_0") = .ok n0 ∧ tmp[0]? = some n0) ∧
      ∀ i, i < nDates →
        ∃ n, api.graphVariable g2 ("_AMC_NPV_" ++ toString i) = .ok n ∧ tmp[i + 1]? = some n := by
  obtain ⟨engine, sPrev, g2, tmp, he, hp, hb, ht, hlook⟩ :=
    tradeLoop_trace api nDates trades s0 sN hrun k hk
  have hnot : (trades[k]).1 ∉ mapKeys (trades.drop (k + 1)) := by
    have := not_mem_drop_of_nodup (mapKeys trades) hkeys k (by simpa [mapKeys] using hk)
    simpa [mapKeys, List.map_drop] using this
  obtain ⟨hlen, hzero, hrest⟩ := amcNpvNodeList_ok api g2 engine.npvName nDates tmp ht
  exact ⟨engine, sPrev, g2, tmp, he, hp, hb, (hlook hnot).1, hlen, hzero, hrest⟩

/-- Witness of C2: the second of two copies of the example trade, two simulation dates. -/
theorem amcNpvNodes_per_trade_witness :
    (mapKeys (duplicatePortfolio [exampleTrade] 2)).Nodup ∧
    ∃ sN, tradeLoop ComputationGraph.api 2 (duplicatePortfolio [exampleTrade] 2) exampleStart
        = .ok sN ∧
      ∃ engine sPrev g2 tmp,
        ((duplicatePortfolio [exampleTrade] 2)[1]).2.engine = some engine ∧
        tradeLoop ComputationGraph.api 2 ((duplicatePortfolio [exampleTrade] 2).take 1)
          exampleStart = .ok sPrev ∧
        engine.buildComputationGraph (ComputationGraph.api.setPrefix sPrev.g
          (((duplicatePortfolio [exampleTrade] 2)[1]).1 ++ "_")) = .ok g2 ∧
        sN.amcNpvNodes.lookup ((duplicatePortfolio [exampleTrade] 2)[1]).1 = some tmp ∧
        tmp.length = 2 + 1 ∧
        (∃ n0, ComputationGraph.api.graphVariable g2 (engine.npvName ++ "_0") = .ok n0 ∧
          tmp[0]? = some n0) ∧
        ∀ i, i < 2 →
          ∃ n, ComputationGraph.api.graphVariable g2 ("_AMC_NPV_" ++ toString i) = .ok n ∧
            tmp[i + 1]? = some n :=
  ⟨by decide, _, rfl,
    amcNpvNodes_per_trade ComputationGraph.api 2 (duplicatePortfolio [exampleTrade] 2)
      exampleStart _ (by decide) rfl 1 (by decide)⟩

/-! ## C3: the trades the loop processes -/

/-- Counterexample to C3 as stated: for the supplied portfolio with the single trade `T` and
`atoi(getenv("N")) = 2` the trade loop completes, and the key sets of `tradeNodeRanges` and of
`amcNpvNodes` are `T_1`, `T_2`: the supplied id `T` is in neither of them. -/
theorem supplied_ids_not_recorded :
    ∃ sN, engineTradeLoop ComputationGraph.api 2 2 [exampleTrade] ComputationGraph.empty = .ok sN ∧
      mapKeys sN.tradeNodeRanges = ["T_1", "T_2"] ∧ mapKeys sN.amcNpvNodes = ["T_1", "T_2"] ∧
      ¬ (∀ key, key ∈ mapKeys sN.tradeNodeRanges ↔ key ∈ [exampleTrade].map Trade.id) ∧
      ¬ (∀ key, key ∈ mapKeys sN.amcNpvNodes ↔ key ∈ [exampleTrade].map Trade.id) := by
  refine ⟨_, rfl, by decide, by decide, ?_, ?_⟩
  · intro h
    exact absurd ((h "T").mpr (by decide)) (by decide)
  · intro h
    exact absurd ((h "T").mpr (by decide)) (by decide)

/-- C3 (amended). The engine processes the duplicated portfolio: with `N` the value of
`atoi(getenv("N"))` as a `Size`, after the trade loop the key sets of `tradeNodeRanges` and of
`amcNpvNodes` both equal the set of ids `id + "_" + (i + 1)`, for `id` the id of a supplied
trade and `i < N`; and for every trade of the duplicated portfolio, in key order, the graph
gets the prefix `id + "_"` of that copy and the copy's contributor is invoked on it. -/
theorem duplicated_ids_recorded {G R : Type} (api : GraphApi G R) (nDates : Nat) (atoiN : Int)
    (supplied : List (Trade G)) (g : G) (sN : TradeLoopState G)
    (hrun : engineTradeLoop api nDates atoiN supplied g = .ok sN) :
    (∀ key, key ∈ mapKeys sN.tradeNodeRanges ↔
      ∃ t ∈ supplied, ∃ i, i < loopBound atoiN ∧ key = t.id ++ ("_" ++ toString (i + 1))) ∧
    (∀ key, key ∈ mapKeys sN.amcNpvNodes ↔
      ∃ t ∈ supplied, ∃ i, i < loopBound atoiN ∧ key = t.id ++ ("_" ++ toString (i + 1))) ∧
    ∀ k entry, (duplicatePortfolio supplied (loopBound atoiN))[k]? = some entry →
      ∃ engine sPrev g2,
        entry.2.engine = some engine ∧
        tradeLoop api nDates ((duplicatePortfolio supplied (loopBound atoiN)).take k)
          { g := g, amcNpvNodes := [], tradeNodeRanges := [] } = .ok sPrev ∧
        engine.buildComputationGraph (api.setPrefix sPrev.g (entry.1 ++ "_")) = .ok g2 := by
  unfold engineTradeLoop at hrun
  refine ⟨?_, ?_, ?_⟩
  · intro key
    rw [(tradeLoop_keys api nDates key _ _ sN hrun).2, mem_mapKeys_duplicatePortfolio]
    simp [mapKeys]
  · intro key
    rw [(tradeLoop_keys api nDates key _ _ sN hrun).1, mem_mapKeys_duplicatePortfolio]
    simp [mapKeys]
  · intro k entry hentry
    obtain ⟨hk, hget⟩ := List.getElem?_eq_some.mp hentry
    obtain ⟨engine, sPrev, g2, tmp, he, hp, hb, -, -⟩ :=
      tradeLoop_trace api nDates _ _ sN hrun k hk
    rw [hget] at he hb
    exact ⟨engine, sPrev, g2, he, hp, hb⟩

/-- Witness of C3 (amended): the supplied portfolio with the single trade `T`, duplicated
twice. -/
theorem duplicated_ids_recorded_witness :
    ∃ sN, engineTradeLoop ComputationGraph.api 2 2 [exampleTrade] ComputationGraph.empty = .ok sN ∧
      (∀ key, key ∈ mapKeys sN.tradeNodeRanges ↔
        ∃ t ∈ [exampleTrade], ∃ i, i < loopBound 2 ∧ key = t.id ++ ("_" ++ toString (i + 1))) ∧
      (∀ key, key ∈ mapKeys sN.amcNpvNodes ↔
        ∃ t ∈ [exampleTrade], ∃ i, i < loopBound 2 ∧ key = t.id ++ ("_" ++ toString (i + 1))) ∧
      ∀ k entry, (duplicatePortfolio [exampleTrade] (loopBound 2))[k]? = some entry →
        ∃ engine sPrev g2,
          entry.2.engine = some engine ∧
          tradeLoop ComputationGraph.api 2
            ((duplicatePortfolio [exampleTrade] (loopBound 2)).take k)
            { g := ComputationGraph.empty, amcNpvNodes := [], tradeNodeRanges := [] }
            = .ok sPrev ∧
          engine.buildComputationGraph (ComputationGraph.api.setPrefix sPrev.g (entry.1 ++ "_"))
            = .ok g2 :=
  ⟨_, rfl, duplicated_ids_recorded ComputationGraph.api 2 2 [exampleTrade]
    ComputationGraph.empty _ rfl⟩

/-! ## C4: the node range of a trade -/

/-- C4. Assume the graph is append-only: no contributor decreases `size()`. Then for every
trade processed in the trade loop (position `k` of `portfolio_->trades()`, whose keys are
pairwise distinct) the node range recorded under the trade's id is `(firstNode, lastNode)` with
`firstNode` the size of the graph immediately before and `lastNode` the size immediately after
that trade's `buildComputationGraph()`; `firstNode <= lastNode`, and the half-open interval
`[firstNode, lastNode)` holds exactly the indices that are nodes after the contribution and
were not before it. -/
theorem tradeNodeRange_half_open {G R : Type} (api : GraphApi G R) (nDates : Nat)
    (trades : List (String × Trade G)) (s0 sN : TradeLoopState G)
    (hkeys : (mapKeys trades).Nodup)
    (happend : ∀ entry ∈ trades, ∀ engine, entry.2.engine = some engine →
      ∀ g g', engine.buildComputationGraph g = .ok g' → api.size g ≤ api.size g')
    (hrun : tradeLoop api nDates trades s0 = .ok sN) (k : Nat) (hk : k < trades.length) :
    ∃ engine sPrev g2 firstNode lastNode,
      (trades[k]).2.engine = some engine ∧
      tradeLoop api nDates (trades.take k) s0 = .ok sPrev ∧
      engine.buildComputationGraph (api.setPrefix sPrev.g ((trades[k]).1 ++ "_")) = .ok g2 ∧
      firstNode = api.size (api.setPrefix sPrev.g ((trades[k]).1 ++ "_")) ∧
      lastNode = api.size g2 ∧
      sN.tradeNodeRanges.lookup (trades[k]).1 = some (firstNode, lastNode) ∧
      firstNode ≤ lastNode ∧
      ∀ i, (firstNode ≤ i ∧ i < lastNode) ↔
        (i < api.size g2 ∧ ¬ i < api.size (api.setPrefix sPrev.g ((trades[k]).1 ++ "_"))) := by
  obtain ⟨engine, sPrev, g2, tmp, he, hp, hb, -, hlook⟩ :=
    tradeLoop_trace api nDates trades s0 sN hrun k hk
  have hnot : (trades[k]).1 ∉ mapKeys (trades.drop (k + 1)) := by
    have := not_mem_drop_of_nodup (mapKeys trades) hkeys k (by simpa [mapKeys] using hk)
    simpa [mapKeys, List.map_drop] using this
  have hle := happend trades[k] (List.getElem_mem hk) engine he _ g2 hb
  refine ⟨engine, sPrev, g2, _, _, he, hp, hb, rfl, rfl, (hlook hnot).2, hle, ?_⟩
  intro i
  omega

/-- Witness of C4: the second of two copies of the example trade. -/
theorem tradeNodeRange_half_open_witness :
    (mapKeys (duplicatePortfolio [exampleTrade] 2)).Nodup ∧
    (∀ entry ∈ duplicatePortfolio [exampleTrade] 2, ∀ engine, entry.2.engine = some engine →
      ∀ g g', engine.buildComputationGraph g = .ok g' →
        ComputationGraph.api.size g ≤ ComputationGraph.api.size g') ∧
    ∃ sN, tradeLoop ComputationGraph.api 2 (duplicatePortfolio [exampleTrade] 2) exampleStart
        = .ok sN ∧
      ∃ engine sPrev g2 firstNode lastNode,
        ((duplicatePortfolio [exampleTrade] 2)[1]).2.engine = some engine ∧
        tradeLoop ComputationGraph.api 2 ((duplicatePortfolio [exampleTrade] 2).take 1)
          exampleStart = .ok sPrev ∧
        engine.buildComputationGraph (ComputationGraph.api.setPrefix sPrev.g
          (((duplicatePortfolio [exampleTrade] 2)[1]).1 ++ "_")) = .ok g2 ∧
        firstNode = ComputationGraph.api.size (ComputationGraph.api.setPrefix sPrev.g
          (((duplicatePortfolio [exampleTrade] 2)[1]).1 ++ "_")) ∧
        lastNode = ComputationGraph.api.size g2 ∧
        sN.tradeNodeRanges.lookup ((duplicatePortfolio [exampleTrade] 2)[1]).1
          = some (firstNode, lastNode) ∧
        firstNode ≤ lastNode ∧
        ∀ i, (firstNode ≤ i ∧ i < lastNode) ↔
          (i < ComputationGraph.api.size g2 ∧
            ¬ i < ComputationGraph.api.size (ComputationGraph.api.setPrefix sPrev.g
              (((duplicatePortfolio [exampleTrade] 2)[1]).1 ++ "_"))) := by
  have happend : ∀ entry ∈ duplicatePortfolio [exampleTrade] 2, ∀ engine,
      entry.2.engine = some engine → ∀ g g', engine.buildComputationGraph g = .ok g' →
        ComputationGraph.api.size g ≤ ComputationGraph.api.size g' := by
    intro entry hmem engine he g g' hb
    have hengine : entry.2.engine = some exampleEngine := by
      have hm : entry ∈
          [("T_1", ({ id := "T_1", engine := some exampleEngine } : Trade (ComputationGraph Int))),
           ("T_2", { id := "T_2", engine := some exampleEngine })] := hmem
      simp only [List.mem_cons, List.mem_singleton, List.not_mem_nil, or_false] at hm
      rcases hm with rfl | rfl <;> rfl
    rw [hengine] at he
    have heq : exampleEngine = engine := Option.some.inj he
    subst heq
    have := exampleEngine_size g g' hb
    simp only [ComputationGraph.api]
    omega
  exact ⟨by decide, happend, _, rfl,
    tradeNodeRange_half_open ComputationGraph.api 2 (duplicatePortfolio [exampleTrade] 2)
      exampleStart _ (by decide) happend rfl 1 (by decide)⟩

/-! ## C5: constants and model parameters -/

/-- C5. After stage 7, for every model parameter `(n, v)` returned by
`model_->modelParameters()` the entry `values[n]` is the operand with `model_->size()` slots all
equal to `v`; for every constant `(c, m)` of the graph whose node `m` is not the node of a model
parameter, `values[m]` is the operand with `model_->size()` slots all equal to `c`; and every
entry of `values` has exactly `model_->size()` slots. (The bound nodes are nodes of the graph,
a node carries one constant and a parameter node one value, as in the pools of the graph and of
the model.) -/
theorem constants_and_parameters_bound {S O D R : Type} [Zero R]
    (makeMultiPathVariateGenerator : GeneratorFactory S O D R) (data : GeneratorData S O D)
    (rv : List (List Nat)) (modelSize gSize : Nat) (constants : List (R × Nat))
    (modelParameters : List (Nat × R)) (values6 : List (RandomVariable R))
    (gen : Option (MultiPathVariateGenerator R))
    (h6 : populateRandomVariates makeMultiPathVariateGenerator data rv modelSize gSize
      = .ok (values6, gen))
    (hconstRange : ∀ c ∈ constants, c.2 < gSize)
    (hparamRange : ∀ p ∈ modelParameters, p.1 < gSize)
    (hconstNode : ∀ c ∈ constants, ∀ c' ∈ constants, c.2 = c'.2 → c.1 = c'.1)
    (hparamNode : ∀ p ∈ modelParameters, ∀ p' ∈ modelParameters, p.1 = p'.1 → p.2 = p'.2) :
    ∃ values,
      populateConstantsAndParameters constants modelParameters modelSize values6 = .ok values ∧
      (∀ p ∈ modelParameters, values[p.1]? = some (RandomVariable.ofValue modelSize p.2)) ∧
      (∀ c ∈ constants, (∀ p ∈ modelParameters, p.1 ≠ c.2) →
        values[c.2]? = some (RandomVariable.ofValue modelSize c.1)) ∧
      values.length = gSize ∧ ∀ x ∈ values, x.size = modelSize := by
  have hshape := populateRandomVariates_shape makeMultiPathVariateGenerator data rv modelSize
    gSize values6 gen h6
  obtain ⟨vals1, hrun1, hlen1, hset1, -, hmem1⟩ := assignAll (fun c : R × Nat => c.2)
    (fun c => RandomVariable.ofValue modelSize c.1) constants values6
    (fun c hc => by rw [hshape.1]; exact hconstRange c hc)
    (fun c hc c' hc' h => by simp only; rw [hconstNode c hc c' hc' h])
  obtain ⟨vals2, hrun2, hlen2, hset2, hother2, hmem2⟩ := assignAll (fun p : Nat × R => p.1)
    (fun p => RandomVariable.ofValue modelSize p.2) modelParameters vals1
    (fun p hp => by rw [hlen1, hshape.1]; exact hparamRange p hp)
    (fun p hp p' hp' h => by simp only; rw [hparamNode p hp p' hp' h])
  refine ⟨vals2, ?_, hset2, ?_, by rw [hlen2, hlen1, hshape.1], ?_⟩
  · simp only [populateConstantsAndParameters, hrun1]
    exact hrun2
  · intro c hc hnot
    rw [hother2 c.2 (fun p hp => hnot p hp)]
    exact hset1 c hc
  · intro x hx
    rcases hmem2 x hx with h | ⟨p, -, rfl⟩
    · rcases hmem1 x h with h' | ⟨c, -, rfl⟩
      · exact hshape.2 x h'
      · simp [RandomVariable.ofValue, RandomVariable.size]
    · simp [RandomVariable.ofValue, RandomVariable.size]

/-- Witness of C5: after the random variates of the example, the constant 7 on node 1 and the
constant 9 on node 3, and one model parameter 5 on node 3. -/
theorem constants_and_parameters_bound_witness :
    ∃ values,
      populateConstantsAndParameters [((7 : Int), 1), (9, 3)] [(3, 5)] 3
        [{ data := [1, 11, 21] }, { data := [0, 0, 0] }, { data := [2, 12, 22] },
         { data := [0, 0, 0] }] = .ok values ∧
      (∀ p ∈ [(3, (5 : Int))], values[p.1]? = some (RandomVariable.ofValue 3 p.2)) ∧
      (∀ c ∈ [((7 : Int), 1), (9, 3)], (∀ p ∈ [(3, (5 : Int))], p.1 ≠ c.2) →
        values[c.2]? = some (RandomVariable.ofValue 3 c.1)) ∧
      values.length = 4 ∧ ∀ x ∈ values, x.size = 3 :=
  constants_and_parameters_bound exampleFactory exampleData [[0], [2]] 3 4
    [((7 : Int), 1), (9, 3)] [(3, 5)] _ _ rfl (by decide) (by decide) (by decide) (by decide)

/-! ## C6: the random variates -/

/-- C6. When `rv = model_->randomVariates()` is not empty, a single path generator is created
with dimension `rv.size()` and `rv.front().size()` time steps, `next()` is drawn exactly
`model_->size()` times (the cursor ends `model_->size()` draws further), and, provided the node
indices `rv[k][j]` are pairwise distinct, after stage 6 slot `p` of `values[rv[k][j]]` equals
`value[j][k]` of the `p`-th draw, for every factor `k < rv.size()`, time step
`j < rv.front().size()` and path `p < model_->size()`. (The subscripts of the stage are in
range: no row of `rv` is shorter than the first, the nodes are nodes of the graph, and every
draw is a block of `rv.front().size()` by `rv.size()` values.) -/
theorem random_variates_populated {S O D R : Type} [Zero R]
    (makeMultiPathVariateGenerator : GeneratorFactory S O D R) (data : GeneratorData S O D)
    (front : List Nat) (rest : List (List Nat)) (modelSize gSize : Nat)
    (hrows : ∀ row ∈ front :: rest, front.length ≤ row.length)
    (hrange : ∀ k j node, j < front.length → variateNode (front :: rest) k j = some node →
      node < gSize)
    (hdistinct : ∀ k j k' j' node, j < front.length → j' < front.length →
      variateNode (front :: rest) k j = some node →
      variateNode (front :: rest) k' j' = some node → k = k' ∧ j = j')
    (hdraws : ∀ p j k, p < modelSize → j < front.length → k < (front :: rest).length →
      ∃ v, drawValue
        ((makeMultiPathVariateGenerator data.sequenceType (front :: rest).length front.length
            data.seed data.ordering data.directionIntegers).draws
          ((makeMultiPathVariateGenerator data.sequenceType (front :: rest).length front.length
            data.seed data.ordering data.directionIntegers).cursor + p)) j k = some v) :
    ∃ values gen,
      populateRandomVariates makeMultiPathVariateGenerator data (front :: rest) modelSize gSize
        = .ok (values, some gen) ∧
      gen.draws = (makeMultiPathVariateGenerator data.sequenceType (front :: rest).length
        front.length data.seed data.ordering data.directionIntegers).draws ∧
      gen.cursor = (makeMultiPathVariateGenerator data.sequenceType (front :: rest).length
        front.length data.seed data.ordering data.directionIntegers).cursor + modelSize ∧
      ∀ k j p, k < (front :: rest).length → j < front.length → p < modelSize →
        ∃ node v, variateNode (front :: rest) k j = some node ∧
          drawValue (gen.draws
            ((makeMultiPathVariateGenerator data.sequenceType (front :: rest).length
              front.length data.seed data.ordering data.directionIntegers).cursor + p)) j k
            = some v ∧
          slotAt values node p = some v := by
  generalize hgen : makeMultiPathVariateGenerator data.sequenceType (front :: rest).length
    front.length data.seed data.ordering data.directionIntegers = gen0 at hdraws ⊢
  have hloop := forLoop_invariant (pathStep (front :: rest) front.length)
    (fun np (s : VariateState R) =>
      VariatesWritten (front :: rest) (fun p => gen0.draws (gen0.cursor + p)) front.length
        modelSize gSize np 0 0 s.values ∧
      s.gen.draws = gen0.draws ∧ s.gen.cursor = gen0.cursor + np)
    modelSize
    { values := List.replicate gSize (RandomVariable.ofValue modelSize (0 : R)), gen := gen0 }
    ?_ ?_
  · obtain ⟨s, hrun, hwritten, hd, hc⟩ := hloop
    refine ⟨s.values, s.gen, ?_, hd, hc, ?_⟩
    · simp only [populateRandomVariates, hgen, hrun]
    · intro k j p hk hj hp
      rw [hd]
      exact hwritten.2 p j k hp hj hk (Or.inl hp)
  · refine ⟨⟨valuesShape_replicate gSize modelSize 0, ?_⟩, rfl, rfl⟩
    intro p j k _ _ _ hb
    unfold writtenBefore at hb
    omega
  · intro np s hnp ⟨hwritten, hd, hc⟩
    have hdraw : s.gen.next.1 = gen0.draws (gen0.cursor + np) := by
      simp [MultiPathVariateGenerator.next, hd, hc]
    obtain ⟨values', hrun, hfin⟩ := setPath_written (front :: rest)
      (fun p => gen0.draws (gen0.cursor + p)) front.length modelSize gSize hrows hrange
      hdistinct hdraws np hnp s.values hwritten
    refine ⟨{ values := values', gen := s.gen.next.2 }, ?_, hfin, ?_, ?_⟩
    · simp only [pathStep, hdraw]
      rw [hrun]
    · simp [MultiPathVariateGenerator.next, hd]
    · simp [MultiPathVariateGenerator.next, hc]
      omega

/-- Witness of C6: two factors on the nodes 0 and 2 of a graph of four nodes, one time step,
three paths. -/
theorem random_variates_populated_witness :
    ∃ values gen,
      populateRandomVariates exampleFactory exampleData ([0] :: [[2]]) 3 4
        = .ok (values, some gen) ∧
      gen.draws = (exampleFactory exampleData.sequenceType ([0] :: [[2]]).length
        [0].length exampleData.seed exampleData.ordering exampleData.directionIntegers).draws ∧
      gen.cursor = (exampleFactory exampleData.sequenceType ([0] :: [[2]]).length
        [0].length exampleData.seed exampleData.ordering exampleData.directionIntegers).cursor
          + 3 ∧
      ∀ k j p, k < ([0] :: [[2]]).length → j < [0].length → p < 3 →
        ∃ node v, variateNode ([0] :: [[2]]) k j = some node ∧
          drawValue (gen.draws
            ((exampleFactory exampleData.sequenceType ([0] :: [[2]]).length
              [0].length exampleData.seed exampleData.ordering
              exampleData.directionIntegers).cursor + p)) j k = some v ∧
          slotAt values node p = some v := by
  refine random_variates_populated exampleFactory exampleData [0] [[2]] 3 4
    (by decide) ?_ ?_ ?_
  · intro k j node _ h
    rcases exampleLayout_node k j node h with ⟨-, -, rfl⟩ | ⟨-, -, rfl⟩ <;> omega
  · intro k j k' j' node _ _ h h'
    rcases exampleLayout_node k j node h with ⟨rfl, rfl, rfl⟩ | ⟨rfl, rfl, rfl⟩ <;>
      rcases exampleLayout_node k' j' _ h' with ⟨rfl, rfl, hn⟩ | ⟨rfl, rfl, hn⟩ <;>
      first | exact ⟨rfl, rfl⟩ | omega
  · intro p j k _ hj hk
    have hj0 : j = 0 := by simpa using hj
    subst hj0
    have hk2 : k = 0 ∨ k = 1 := by
      simp only [List.length_cons, List.length_nil] at hk
      omega
    rcases hk2 with rfl | rfl
    · exact ⟨_, rfl⟩
    · exact ⟨_, rfl⟩

/-! ## C9: determinism of the random variates -/

/-- C10. For every computation graph built through `append` (and `constant`, `setPrefix`), and
for every node `n` of it, every input index of `n` is strictly less than `n`: ascending index
order is a topological order. -/
theorem built_inputs_lt {R : Type} [DecidableEq R] (g : ComputationGraph R)
    (hbuilt : ComputationGraph.Built g) :
    ∀ (n : Nat) (node : Node), g.nodes[n]? = some node → ∀ i ∈ node.inputs, i < n := by
  induction hbuilt with
  | empty =>
    intro n node h
    simp [ComputationGraph.empty] at h
  | @append g g' idx operatorKind inputIndices label _ happ ih =>
    intro n node h i hi
    obtain ⟨-, -, -, hall, hnodes⟩ := append_nodes g g' operatorKind idx inputIndices label happ
    rw [hnodes] at h
    by_cases hn : n < g.nodes.length
    · rw [List.getElem?_append_left hn] at h
      exact ih n node h i hi
    · rw [List.getElem?_append_right (Nat.le_of_not_lt hn)] at h
      have hzero : n - g.nodes.length = 0 := by
        by_contra hne
        rw [List.getElem?_eq_none (by simp; omega)] at h
        exact absurd h (by simp)
      rw [hzero] at h
      simp only [List.getElem?_cons_zero, Option.some.injEq] at h
      rw [← h] at hi
      have hlt : i < g.size := by
        have := List.all_eq_true.mp hall i hi
        simpa using this
      simp only [ComputationGraph.size] at hlt
      omega
  | @constant g value _ ih =>
    intro n node h i hi
    unfold ComputationGraph.constant at h
    cases hl : g.constantPool.lookup value with
    | some idx =>
      simp only [hl] at h
      exact ih n node h i hi
    | none =>
      simp only [hl] at h
      by_cases hn : n < g.nodes.length
      · rw [List.getElem?_append_left hn] at h
        exact ih n node h i hi
      · rw [List.getElem?_append_right (Nat.le_of_not_lt hn)] at h
        have hzero : n - g.nodes.length = 0 := by
          by_contra hne
          rw [List.getElem?_eq_none (by simp; omega)] at h
          exact absurd h (by simp)
        rw [hzero] at h
        simp only [List.getElem?_cons_zero, Option.some.injEq] at h
        rw [← h] at hi
        simp at hi
  | @setPrefix g p _ ih =>
    intro n node h i hi
    exact ih n node h i hi

/-- Witness of C10: the graph of the example contributor. -/
theorem built_inputs_lt_witness :
    ComputationGraph.Built exampleGraph ∧
    ∀ (n : Nat) (node : Node), exampleGraph.nodes[n]? = some node → ∀ i ∈ node.inputs, i < n :=
  ⟨exampleGraph_built, built_inputs_lt exampleGraph exampleGraph_built⟩

/-! ## C7: the result of a run -/

/-- Counterexample to C8 as stated: in the example the node 1 of the graph (`T_1_x`) is an
input node that is neither a random variate, nor a constant, nor a model parameter, yet the
constructor completes: the node is bound to the operand of zeros, `npv_0` (node 2) is the
variate plus zero, and no `UnboundInput` is raised. -/
theorem unbound_input_not_reported :
    ∃ members locals, construct exampleFactory 1 exampleArguments = .ok (members, locals) ∧
      nodeInputs members.computationGraph.nodes 1 = [] ∧
      (∀ k j, variateNode exampleArguments.model.randomVariates k j ≠ some 1) ∧
      (∀ c ∈ members.computationGraph.constantPool, c.2 ≠ 1) ∧
      (∀ p ∈ members.baseModelParams_, p.1 ≠ 1) ∧
      locals.boundValues[1]? = some (RandomVariable.ofValue 2 0) ∧
      locals.values = [none, none, some { data := [1, 11] }, some { data := [2, 12] }] := by
  refine ⟨_, _, rfl, rfl, ?_, by decide, by decide, rfl, rfl⟩
  intro k j h
  match k, j with
  | 0, 0 => simp [exampleArguments, variateNode] at h
  | 0, j + 1 => simp [exampleArguments, variateNode] at h
  | k + 1, j => simp [exampleArguments, variateNode] at h

/-- C8 (amended). The engine's evaluation never fails with `UnboundInput`: stage 6 binds every
node of the graph to an operand of `model_->size()` zeros before anything else is bound, so
after stage 7 an input node that is neither a random variate, nor a constant, nor a model
parameter holds `0.0` on every path, and the forward evaluation of a graph whose inputs precede
their nodes reads that value. -/
theorem unbound_input_reads_zero {S O D R : Type} [Zero R]
    (makeMultiPathVariateGenerator : GeneratorFactory S O D R) (data : GeneratorData S O D)
    (model : ModelCG R) (g : ComputationGraph R) (boundValues : List (RandomVariable R))
    (hord : InputsPrecede g.nodes)
    (hbind : bindStage makeMultiPathVariateGenerator data model g = .ok boundValues) :
    boundValues.length = g.size ∧
    (∀ n, n < g.size → (∀ k j, variateNode model.randomVariates k j ≠ some n) →
      (∀ c ∈ ComputationGraph.api.constants g, c.2 ≠ n) →
      (∀ p ∈ model.modelParameters, p.1 ≠ n) →
      boundValues[n]? = some (RandomVariable.ofValue model.size 0)) ∧
    ∀ (ops : List (List (RandomVariable R) → RandomVariable R)) (keepNodes : List Bool)
      (node : Nat),
      forwardEvaluation g ops (boundValues.map some) keepNodes ≠ .error (.unboundInput node) := by
  obtain ⟨hlen, hzero⟩ := bindStage_inv makeMultiPathVariateGenerator data model g boundValues
    hbind
  refine ⟨hlen, hzero, ?_⟩
  intro ops keepNodes node herr
  obtain ⟨n, hn⟩ := forwardEvaluation_error_kind g ops boundValues keepNodes hord hlen _ herr
  exact absurd hn (by simp)
/-- Witness of C8 (amended): the graph of the example after the trade loop. -/
theorem unbound_input_reads_zero_witness :
    InputsPrecede examplePricedGraph.nodes ∧
    bindStage exampleFactory exampleData exampleArguments.model examplePricedGraph
      = .ok [{ data := [1, 11] }, { data := [0, 0] }, { data := [0, 0] }, { data := [0, 0] }] ∧
    ([{ data := [1, 11] }, { data := [0, 0] }, { data := [0, 0] }, { data := [0, 0] }] :
      List (RandomVariable Int)).length = examplePricedGraph.size ∧
    (∀ n, n < examplePricedGraph.size →
      (∀ k j, variateNode exampleArguments.model.randomVariates k j ≠ some n) →
      (∀ c ∈ ComputationGraph.api.constants examplePricedGraph, c.2 ≠ n) →
      (∀ p ∈ exampleArguments.model.modelParameters, p.1 ≠ n) →
      ([{ data := [1, 11] }, { data := [0, 0] }, { data := [0, 0] }, { data := [0, 0] }] :
        List (RandomVariable Int))[n]? = some (RandomVariable.ofValue exampleArguments.model.size 0)) ∧
    ∀ (ops : List (List (RandomVariable Int) → RandomVariable Int)) (keepNodes : List Bool)
      (node : Nat),
      forwardEvaluation examplePricedGraph ops
        (([{ data := [1, 11] }, { data := [0, 0] }, { data := [0, 0] }, { data := [0, 0] }] :
          List (RandomVariable Int)).map some) keepNodes ≠ .error (.unboundInput node) :=
  ⟨examplePricedGraph_order, rfl,
    unbound_input_reads_zero exampleFactory exampleData exampleArguments.model
      examplePricedGraph _ examplePricedGraph_order rfl⟩

end XvaEngineCG

/-! # CrossAssetModelData: the claims -/

namespace CrossAssetModelData

open XvaEngineCG

theorem length_resize {α : Type} (v : List (Option α)) (n : Nat) : (resize v n).length = n := by
  simp only [resize, List.length_append, List.length_take, List.length_replicate]
  omega

theorem irFromDefault_eq {R : Type} (ccy : String) (d : IrLgmData R) :
    irFromDefault ccy d = { d with ccy := ccy } := rfl

theorem irStep_keeps {R : Type} (currencies : List String)
    (irDataMap : List (String × IrLgmData R)) (i : Nat) (a b : List (Option (IrLgmData R)))
    (hi : i < currencies.length) (ha : IrFilled currencies irDataMap i a)
    (hb : irStep currencies irDataMap i a = .ok b) :
    IrFilled currencies irDataMap (i + 1) b := by
  obtain ⟨hlen, hfill⟩ := ha
  have hc : currencies[i]? = some currencies[i] := List.getElem?_eq_getElem hi
  have key : ∀ x, assignAt a i (some x) = .ok b →
      ((∀ c, irDataMap.lookup currencies[i] = some c → x = c) ∧
        (irDataMap.lookup currencies[i] = none → ∀ d, irDataMap.lookup "default" = some d →
          x = { d with ccy := currencies[i] }) ∧
        (irDataMap.lookup currencies[i] = none → irDataMap.lookup "default" ≠ none)) →
      IrFilled currencies irDataMap (i + 1) b := by
    intro x hx hsel
    obtain ⟨hia, hbx⟩ := assignAt_inv a b i (some x) hx
    subst hbx
    refine ⟨by simpa using hlen, ?_⟩
    intro j ccy hj hccy
    by_cases hji : j = i
    · subst hji
      rw [hc] at hccy
      cases hccy
      refine ⟨fun c hcfg => ?_, fun hn d hd => ?_, hsel.2.2⟩
      · rw [← hsel.1 c hcfg]; simp [hia]
      · rw [← hsel.2.1 hn d hd]; simp [hia]
    · have hlt : j < i := by omega
      have hne : i ≠ j := fun h => hji h.symm
      simpa [List.getElem?_set_ne hne] using hfill j ccy hlt hccy
  simp only [irStep, hc] at hb
  cases hl : irDataMap.lookup currencies[i] with
  | some config =>
    simp only [hl] at hb
    refine key config hb ⟨fun c hcfg => ?_, fun hn => ?_, fun hn => ?_⟩
    · exact Option.some.inj (hl.symm.trans hcfg)
    · exact absurd (hl.symm.trans hn) (Option.some_ne_none config)
    · exact absurd (hl.symm.trans hn) (Option.some_ne_none config)
  | none =>
    simp only [hl] at hb
    cases hd : irDataMap.lookup "default" with
    | none => simp [hd] at hb
    | some d =>
      simp only [hd] at hb
      refine key _ hb ⟨fun c hcfg => ?_, fun _ d' hd' => ?_, fun _ hnone =>
        Option.some_ne_none d (hd.symm.trans hnone)⟩
      · exact absurd (hcfg.symm.trans hl) (Option.some_ne_none c)
      · cases Option.some.inj (hd.symm.trans hd')
        rfl

theorem irFilled_start {R : Type} (currencies : List String)
    (irDataMap : List (String × IrLgmData R)) (irConfigs : List (Option (IrLgmData R))) :
    IrFilled currencies irDataMap 0 (resize irConfigs currencies.length) :=
  ⟨length_resize _ _, fun j _ hj => absurd hj (Nat.not_lt_zero j)⟩

theorem buildIrConfigs_filled {R : Type} (currencies : List String)
    (irDataMap : List (String × IrLgmData R)) (irConfigs result : List (Option (IrLgmData R)))
    (h : buildIrConfigs currencies irDataMap irConfigs = .ok result) :
    IrFilled currencies irDataMap currencies.length result :=
  forLoop_ok_invariant (irStep currencies irDataMap) (IrFilled currencies irDataMap)
    currencies.length _ (irFilled_start currencies irDataMap irConfigs)
    (fun i a b hi ha hb => irStep_keeps currencies irDataMap i a b hi ha hb) result h

/-! ## C11: the IR configurations follow the currencies -/

/-- C11: if every entry of `irDataMap` is keyed by its own `ccy()` and `buildIrConfigs` returns
normally, then `irConfigs_` has the size of `currencies_` and for every `i` the entry
`irConfigs_[i]` is a configuration whose `ccy()` is `currencies_[i]`. -/
theorem irConfigs_follow_currencies {R : Type} (currencies : List String)
    (irDataMap : List (String × IrLgmData R)) (irConfigs result : List (Option (IrLgmData R)))
    (hkey : ∀ k c, irDataMap.lookup k = some c → c.ccy = k)
    (h : buildIrConfigs currencies irDataMap irConfigs = .ok result) :
    result.length = currencies.length ∧
      ∀ (i : Nat) (hi : i < currencies.length),
        ∃ c, result[i]? = some (some c) ∧ c.ccy = currencies[i] := by
  obtain ⟨hlen, hfill⟩ := buildIrConfigs_filled currencies irDataMap irConfigs result h
  refine ⟨hlen, fun i hi => ?_⟩
  obtain ⟨hfound, hdef, hsome⟩ := hfill i currencies[i] hi (List.getElem?_eq_getElem hi)
  cases hl : irDataMap.lookup currencies[i] with
  | some c => exact ⟨c, hfound c hl, hkey _ c hl⟩
  | none =>
    cases hd : irDataMap.lookup "default" with
    | some d => exact ⟨_, hdef hl d hd, rfl⟩
    | none => exact absurd hd (hsome hl)

/-- The theorem `irConfigs_follow_currencies` at two currencies, one with its own entry and one
served by the default entry, from a vector that held three null pointers. -/
theorem irConfigs_follow_currencies_witness :
    (∀ k c, [("EUR", exampleIr "EUR" 1), ("default", exampleIr "default" 9)].lookup k = some c →
        c.ccy = k) ∧
      buildIrConfigs ["EUR", "USD"] [("EUR", exampleIr "EUR" 1), ("default", exampleIr "default" 9)]
          [none, none, none] =
        .ok [some (exampleIr "EUR" 1), some (exampleIr "USD" 9)] ∧
      ([some (exampleIr "EUR" 1), some (exampleIr "USD" 9)].length = ["EUR", "USD"].length ∧
        ∀ (i : Nat) (hi : i < ["EUR", "USD"].length),
          ∃ c, [some (exampleIr "EUR" 1), some (exampleIr "USD" 9)][i]? = some (some c) ∧
            c.ccy = ["EUR", "USD"][i]) :=
  have hkey : ∀ k c,
      [("EUR", exampleIr "EUR" 1), ("default", exampleIr "default" 9)].lookup k = some c →
        c.ccy = k := by
    intro k c h
    simp only [List.lookup] at h
    split at h
    · cases h
      simp_all [exampleIr]
    · split at h
      · cases h
        simp_all [exampleIr]
      · cases h
  ⟨hkey, rfl, irConfigs_follow_currencies ["EUR", "USD"] _ [none, none, none] _ hkey rfl⟩

theorem irStep_error {R : Type} (currencies : List String)
    (irDataMap : List (String × IrLgmData R)) (i : Nat) (a : List (Option (IrLgmData R)))
    (e : Fault) (hi : i < currencies.length) (ha : a.length = currencies.length)
    (herr : irStep currencies irDataMap i a = .error e) :
    e = .requireFailed ∧ irDataMap.lookup currencies[i] = none ∧
      irDataMap.lookup "default" = none := by
  have hia : i < a.length := ha ▸ hi
  simp only [irStep, List.getElem?_eq_getElem hi] at herr
  cases hl : irDataMap.lookup currencies[i] with
  | some config => simp [hl, assignAt_ok _ _ _ hia] at herr
  | none =>
    cases hd : irDataMap.lookup "default" with
    | some d => simp [hl, hd, assignAt_ok _ _ _ hia] at herr
    | none =>
      simp only [hl, hd, Except.error.injEq] at herr
      exact ⟨herr.symm, rfl, rfl⟩

/-! ## C12: when buildIrConfigs throws, and the copy of the default -/

/-- C12: `buildIrConfigs` throws if and only if some currency of `currencies_` has no entry in
`irDataMap` while `irDataMap` has no entry under the key "default", and the failure is then the
`QL_FAIL` of line 444; when it returns and the currency `currencies_[i]` has no entry, the
configuration stored in `irConfigs_[i]` is the default one with `ccy` replaced by that currency
and every other field unchanged. -/
theorem buildIrConfigs_throws_iff {R : Type} (currencies : List String)
    (irDataMap : List (String × IrLgmData R)) (irConfigs : List (Option (IrLgmData R))) :
    ((∃ e, buildIrConfigs currencies irDataMap irConfigs = .error e) ↔
        ∃ ccy, ccy ∈ currencies ∧ irDataMap.lookup ccy = none ∧
          irDataMap.lookup "default" = none) ∧
      (∀ e, buildIrConfigs currencies irDataMap irConfigs = .error e → e = .requireFailed) ∧
      ∀ (result : List (Option (IrLgmData R))) (i : Nat) (ccy : String) (d : IrLgmData R),
        buildIrConfigs currencies irDataMap irConfigs = .ok result →
        currencies[i]? = some ccy → irDataMap.lookup ccy = none →
        irDataMap.lookup "default" = some d →
        result[i]? = some (some { d with ccy := ccy }) := by
  have herr : ∀ e, buildIrConfigs currencies irDataMap irConfigs = .error e →
      e = .requireFailed ∧ ∃ ccy, ccy ∈ currencies ∧ irDataMap.lookup ccy = none ∧
        irDataMap.lookup "default" = none := by
    intro e he
    obtain ⟨i, a, hi, ha, hstep⟩ := forLoop_error (irStep currencies irDataMap)
      (IrFilled currencies irDataMap) currencies.length _
      (irFilled_start currencies irDataMap irConfigs)
      (fun i a b hi ha hb => irStep_keeps currencies irDataMap i a b hi ha hb) e he
    obtain ⟨h1, h2, h3⟩ := irStep_error currencies irDataMap i a e hi ha.1 hstep
    exact ⟨h1, currencies[i], List.getElem_mem hi, h2, h3⟩
  refine ⟨⟨fun ⟨e, he⟩ => (herr e he).2, ?_⟩, fun e he => (herr e he).1, ?_⟩
  · rintro ⟨ccy, hmem, hl, hd⟩
    cases hrun : buildIrConfigs currencies irDataMap irConfigs with
    | error e => exact ⟨e, rfl⟩
    | ok result =>
      obtain ⟨i, hi, hget⟩ := List.getElem_of_mem hmem
      have hfill := (buildIrConfigs_filled currencies irDataMap irConfigs result hrun).2 i ccy hi
        (by rw [List.getElem?_eq_getElem hi, hget])
      exact absurd hd (hfill.2.2 hl)
  · intro result i ccy d hrun hc hl hd
    have hi : i < currencies.length := by
      rcases Nat.lt_or_ge i currencies.length with h | h
      · exact h
      · rw [List.getElem?_eq_none h] at hc
        cases hc
    exact ((buildIrConfigs_filled currencies irDataMap irConfigs result hrun).2 i ccy hi hc).2.1
      hl d hd

/-- The theorem `buildIrConfigs_throws_iff` at two currencies: with a default entry the call
returns and the entry of "USD" is the default with its currency replaced; without one the
call throws. -/
theorem buildIrConfigs_throws_iff_witness :
    (buildIrConfigs ["EUR", "USD"] [("EUR", exampleIr "EUR" 1), ("default", exampleIr "default" 9)]
          [] = .ok [some (exampleIr "EUR" 1), some (exampleIr "USD" 9)] ∧
        [some (exampleIr "EUR" 1), some (exampleIr "USD" 9)][1]? =
          some (some { exampleIr "default" 9 with ccy := "USD" })) ∧
      ∃ e, buildIrConfigs ["EUR", "USD"] [("EUR", exampleIr "EUR" 1)] [] = .error e :=
  ⟨⟨rfl, (buildIrConfigs_throws_iff ["EUR", "USD"]
      [("EUR", exampleIr "EUR" 1), ("default", exampleIr "default" 9)] []).2.2 _ 1 "USD"
        (exampleIr "default" 9) rfl rfl rfl rfl⟩,
    (buildIrConfigs_throws_iff ["EUR", "USD"] [("EUR", exampleIr "EUR" 1)] []).1.2
      ⟨"USD", by decide, rfl, rfl⟩⟩

theorem fxStep_keeps {R : Type} (domesticCurrency : String) (currencies : List String)
    (fxDataMap : List (String × FxBsData R))
    (hkey : ∀ k c, fxDataMap.lookup k = some c → c.foreignCcy = k)
    (i : Nat) (a b : List (FxBsData R)) (hi : i < currencies.length)
    (ha : a.map (fun c => c.foreignCcy) =
      (currencies.take i).filter (fun c => decide (c ≠ domesticCurrency)))
    (hb : fxStep domesticCurrency currencies fxDataMap i a = .ok b) :
    b.map (fun c => c.foreignCcy) =
      (currencies.take (i + 1)).filter (fun c => decide (c ≠ domesticCurrency)) := by
  have hc : currencies[i]? = some currencies[i] := List.getElem?_eq_getElem hi
  rw [List.take_succ, hc, Option.toList_some, List.filter_append, ← ha]
  simp only [fxStep, hc] at hb
  by_cases hdom : currencies[i] = domesticCurrency
  · simp only [hdom, if_true, Except.ok.injEq] at hb
    subst hb
    simp [hdom]
  · simp only [hdom, if_false] at hb
    have hfilter : [currencies[i]].filter (fun c => decide (c ≠ domesticCurrency)) =
        [currencies[i]] := by simp [hdom]
    rw [hfilter]
    cases hl : fxDataMap.lookup currencies[i] with
    | some config =>
      simp only [hl, Except.ok.injEq] at hb
      subst hb
      simp [hkey _ _ hl]
    | none =>
      cases hd : fxDataMap.lookup "default" with
      | none => simp [hl, hd] at hb
      | some d =>
        simp only [hl, hd, Except.ok.injEq] at hb
        subst hb
        simp [fxFromDefault]

/-! ## C13: the FX configurations follow the foreign currencies -/

/-- C13: if every entry of `fxDataMap` is keyed by its own `foreignCcy()` and `buildFxConfigs`,
started on an empty `fxConfigs_`, returns normally, then the `foreignCcy()` of the entries of
`fxConfigs_`, in order, are the elements of `currencies_` other than `domesticCurrency_`, in
order: one entry for each such element, the k-th entry for the k-th of them. -/
theorem fxConfigs_follow_foreign_currencies {R : Type} (domesticCurrency : String)
    (currencies : List String) (fxDataMap : List (String × FxBsData R))
    (result : List (FxBsData R))
    (hkey : ∀ k c, fxDataMap.lookup k = some c → c.foreignCcy = k)
    (h : buildFxConfigs domesticCurrency currencies fxDataMap [] = .ok result) :
    result.map (fun c => c.foreignCcy) =
      currencies.filter (fun c => decide (c ≠ domesticCurrency)) := by
  have hinv := forLoop_ok_invariant (fxStep domesticCurrency currencies fxDataMap)
    (fun i s => s.map (fun c => c.foreignCcy) =
      (currencies.take i).filter (fun c => decide (c ≠ domesticCurrency)))
    currencies.length [] (by simp)
    (fun i a b hi ha hb => fxStep_keeps domesticCurrency currencies fxDataMap hkey i a b hi ha hb)
    result h
  simpa using hinv

/-- The theorem `fxConfigs_follow_foreign_currencies` at three currencies, the first one
domestic, one foreign currency with its own entry and one served by the default entry. -/
theorem fxConfigs_follow_foreign_currencies_witness :
    (∀ k c, [("GBP", exampleFx "GBP"), ("default", exampleFx "default")].lookup k = some c →
        c.foreignCcy = k) ∧
      buildFxConfigs "EUR" ["EUR", "USD", "GBP"]
          [("GBP", exampleFx "GBP"), ("default", exampleFx "default")] [] =
        .ok [exampleFx "USD", exampleFx "GBP"] ∧
      [exampleFx "USD", exampleFx "GBP"].map (fun c => c.foreignCcy) =
        ["EUR", "USD", "GBP"].filter (fun c => decide (c ≠ "EUR")) :=
  have hkey : ∀ k c,
      [("GBP", exampleFx "GBP"), ("default", exampleFx "default")].lookup k = some c →
        c.foreignCcy = k := by
    intro k c h
    simp only [List.lookup] at h
    split at h
    · cases h
      simp_all [exampleFx]
    · split at h
      · cases h
        simp_all [exampleFx]
      · cases h
  ⟨hkey, rfl, fxConfigs_follow_foreign_currencies "EUR" ["EUR", "USD", "GBP"] _ _ hkey rfl⟩

/-! ## C14: the inflation configurations and the default model data -/

/-- C14, the divergence: with `infindices_` holding the one index "EUHICPXT" and a map whose only
entry is a DK configuration under the key "default", keyed by its own `index()`,
`buildInfConfigs` returns normally from an empty `infConfigs_`, and the `index()` of
`infConfigs_[0]` is "default", not `infindices_[0]`: lines 535 and 539 copy the default data
without overwriting the index. -/
theorem default_inflation_index_not_overwritten :
    (∀ k c, [("default", InflationModelData.infDk "default" ())].lookup k = some c →
        c.index = k) ∧
      buildInfConfigs ["EUHICPXT"] [("default", InflationModelData.infDk "default" ())] [] =
        .ok [InflationModelData.infDk "default" ()] ∧
      ([InflationModelData.infDk "default" ()].map (fun c => c.index) ≠ ["EUHICPXT"]) := by
  refine ⟨?_, rfl, by decide⟩
  intro k c h
  simp only [List.lookup] at h
  split at h
  · cases h
    simp_all [InflationModelData.index]
  · cases h

theorem crFilled_start {R C : Type} (creditNames : List String)
    (crLgmDataMap : List (String × CrLgmData R)) (crCirDataMap : List (String × C)) :
    CrFilled creditNames crLgmDataMap crCirDataMap 0 { crLgmConfigs := [], crCirConfigs := [] } := by
  simp [CrFilled]

theorem crStep_keeps {R C : Type} (creditNames : List String)
    (crLgmDataMap : List (String × CrLgmData R)) (crCirDataMap : List (String × C))
    (i : Nat) (a b : CrConfigs R C) (hi : i < creditNames.length)
    (ha : CrFilled creditNames crLgmDataMap crCirDataMap i a)
    (hb : crStep creditNames crLgmDataMap crCirDataMap i a = .ok b) :
    CrFilled creditNames crLgmDataMap crCirDataMap (i + 1) b := by
  obtain ⟨hlgm, hcir, hlen, hrej⟩ := ha
  have hc : creditNames[i]? = some creditNames[i] := List.getElem?_eq_getElem hi
  simp only [crStep, hc] at hb
  simp only [CrFilled, List.take_succ, hc, Option.toList_some, List.filterMap_append,
    List.mem_append, List.mem_singleton]
  cases hl : crLgmDataMap.lookup creditNames[i] with
  | some lgm =>
    cases hx : crCirDataMap.lookup creditNames[i] with
    | some cir => simp [hl, hx] at hb
    | none =>
      simp only [hl, hx, Except.ok.injEq] at hb
      subst hb
      refine ⟨by simp [hlgm, lgmChoice, hl], by simp [hcir, cirChoice, hl], by
        simp only [List.length_append, List.length_singleton]; omega, ?_⟩
      rintro name (hmem | rfl)
      · exact hrej name hmem
      · simp [crRejected, hl, hx]
  | none =>
    cases hx : crCirDataMap.lookup creditNames[i] with
    | some cir =>
      simp only [hl, hx, Except.ok.injEq] at hb
      subst hb
      refine ⟨by simp [hlgm, lgmChoice, hl, hx], by simp [hcir, cirChoice, hl, hx], by
        simp only [List.length_append, List.length_singleton]; omega, ?_⟩
      rintro name (hmem | rfl)
      · exact hrej name hmem
      · simp [crRejected, hl, hx]
    | none =>
      cases hd : crLgmDataMap.lookup "default" with
      | none => simp [hl, hx, hd] at hb
      | some d =>
        simp only [hl, hx, hd, Except.ok.injEq] at hb
        subst hb
        refine ⟨by simp [hlgm, lgmChoice, hl, hx, hd, crFromDefault],
          by simp [hcir, cirChoice, hl, hx], by
          simp only [List.length_append, List.length_singleton]; omega, ?_⟩
        rintro name (hmem | rfl)
        · exact hrej name hmem
        · simp [crRejected, hl, hx, hd]

theorem crStep_error {R C : Type} (creditNames : List String)
    (crLgmDataMap : List (String × CrLgmData R)) (crCirDataMap : List (String × C))
    (i : Nat) (a : CrConfigs R C) (e : Fault) (hi : i < creditNames.length)
    (herr : crStep creditNames crLgmDataMap crCirDataMap i a = .error e) :
    e = .requireFailed ∧ crRejected crLgmDataMap crCirDataMap creditNames[i] := by
  simp only [crStep, List.getElem?_eq_getElem hi] at herr
  cases hl : crLgmDataMap.lookup creditNames[i] with
  | some lgm =>
    cases hx : crCirDataMap.lookup creditNames[i] with
    | some cir =>
      simp only [hl, hx, Except.error.injEq] at herr
      exact ⟨herr.symm, by simp [crRejected, hl, hx]⟩
    | none => simp [hl, hx] at herr
  | none =>
    cases hx : crCirDataMap.lookup creditNames[i] with
    | some cir => simp [hl, hx] at herr
    | none =>
      cases hd : crLgmDataMap.lookup "default" with
      | some d => simp [hl, hx, hd] at herr
      | none =>
        simp only [hl, hx, hd, Except.error.injEq] at herr
        exact ⟨herr.symm, by simp [crRejected, hl, hx, hd]⟩

/-! ## C15: the credit configurations -/

/-- C15: if `buildCrConfigs` returns normally, the sizes of `crLgmConfigs_` and `crCirConfigs_`
add up to the size of `creditNames_`; `crCirConfigs_` holds, in the order of `creditNames_`, the
CIR entries of the names with a CIR entry and no LGM entry; `crLgmConfigs_` holds, in the order
of `creditNames_`, for every other name its own LGM entry or else the LGM default with the name
overwritten. The call throws, by a `QL_REQUIRE` or `QL_FAIL`, exactly when some name has both
an LGM and a CIR entry, or has neither while no LGM default exists. -/
theorem crConfigs_partition_creditNames {R C : Type} (creditNames : List String)
    (crLgmDataMap : List (String × CrLgmData R)) (crCirDataMap : List (String × C)) :
    (∀ s, buildCrConfigs creditNames crLgmDataMap crCirDataMap = .ok s →
        s.crLgmConfigs.length + s.crCirConfigs.length = creditNames.length ∧
        s.crCirConfigs = creditNames.filterMap (cirChoice crLgmDataMap crCirDataMap) ∧
        s.crLgmConfigs = creditNames.filterMap (lgmChoice crLgmDataMap crCirDataMap)) ∧
      ((∃ name, name ∈ creditNames ∧ crRejected crLgmDataMap crCirDataMap name) ↔
        ∃ e, buildCrConfigs creditNames crLgmDataMap crCirDataMap = .error e) ∧
      ∀ e, buildCrConfigs creditNames crLgmDataMap crCirDataMap = .error e →
        e = .requireFailed := by
  have hok : ∀ s, buildCrConfigs creditNames crLgmDataMap crCirDataMap = .ok s →
      CrFilled creditNames crLgmDataMap crCirDataMap creditNames.length s :=
    forLoop_ok_invariant (crStep creditNames crLgmDataMap crCirDataMap)
      (CrFilled creditNames crLgmDataMap crCirDataMap) creditNames.length _
      (crFilled_start creditNames crLgmDataMap crCirDataMap)
      (fun i a b hi ha hb => crStep_keeps creditNames crLgmDataMap crCirDataMap i a b hi ha hb)
  have herr : ∀ e, buildCrConfigs creditNames crLgmDataMap crCirDataMap = .error e →
      e = .requireFailed ∧ ∃ name, name ∈ creditNames ∧
        crRejected crLgmDataMap crCirDataMap name := by
    intro e he
    obtain ⟨i, a, hi, _, hstep⟩ := forLoop_error (crStep creditNames crLgmDataMap crCirDataMap)
      (CrFilled creditNames crLgmDataMap crCirDataMap) creditNames.length _
      (crFilled_start creditNames crLgmDataMap crCirDataMap)
      (fun i a b hi ha hb => crStep_keeps creditNames crLgmDataMap crCirDataMap i a b hi ha hb)
      e he
    obtain ⟨h1, h2⟩ := crStep_error creditNames crLgmDataMap crCirDataMap i a e hi hstep
    exact ⟨h1, creditNames[i], List.getElem_mem hi, h2⟩
  refine ⟨fun s hs => ?_, ⟨?_, fun ⟨e, he⟩ => (herr e he).2⟩, fun e he => (herr e he).1⟩
  · obtain ⟨hlgm, hcir, hlen, _⟩ := hok s hs
    rw [List.take_length] at hlgm hcir
    exact ⟨hlen, hcir, hlgm⟩
  · rintro ⟨name, hmem, hrej⟩
    cases hrun : buildCrConfigs creditNames crLgmDataMap crCirDataMap with
    | error e => exact ⟨e, rfl⟩
    | ok s =>
      have hnot := (hok s hrun).2.2.2 name (by rw [List.take_length]; exact hmem)
      exact absurd hrej hnot

/-- The theorem `crConfigs_partition_creditNames` at three names: "A" with an LGM entry, "B"
with a CIR entry, "C" served by the LGM default; and at the one name "A" with both entries. -/
theorem crConfigs_partition_creditNames_witness :
    (buildCrConfigs ["A", "B", "C"] [("A", exampleCr "A"), ("default", exampleCr "default")]
        [("B", 7)] = .ok { crLgmConfigs := [exampleCr "A", exampleCr "C"], crCirConfigs := [7] } ∧
      [exampleCr "A", exampleCr "C"].length + [7].length = ["A", "B", "C"].length ∧
      [7] = ["A", "B", "C"].filterMap
        (cirChoice [("A", exampleCr "A"), ("default", exampleCr "default")] [("B", 7)]) ∧
      [exampleCr "A", exampleCr "C"] = ["A", "B", "C"].filterMap
        (lgmChoice [("A", exampleCr "A"), ("default", exampleCr "default")] [("B", 7)])) ∧
      ∃ e, buildCrConfigs ["A"] [("A", exampleCr "A")] [("A", 7)] = .error e :=
  ⟨⟨rfl, (crConfigs_partition_creditNames ["A", "B", "C"]
      [("A", exampleCr "A"), ("default", exampleCr "default")] [("B", 7)]).1 _ rfl⟩,
    (crConfigs_partition_creditNames ["A"] [("A", exampleCr "A")] [("A", 7)]).2.1.1
      ⟨"A", by decide, Or.inl ⟨by decide, by decide⟩⟩⟩

theorem validateStep_ok_iff {R : Type} (fxConfigs : List (FxBsData R))
    (irConfigs : List (IrLgmData R)) (i : Nat) (u : Unit) :
    validateStep fxConfigs irConfigs i u = .ok () ↔
      ∃ fx ir, fxConfigs[i]? = some fx ∧ irConfigs[i + 1]? = some ir ∧
        fx.foreignCcy = ir.ccy := by
  simp only [validateStep]
  cases hf : fxConfigs[i]? with
  | none => simp
  | some f =>
    cases hr : irConfigs[i + 1]? with
    | none => simp
    | some c =>
      by_cases hfc : f.foreignCcy = c.ccy
      · simp [hfc]
      · simp only [hfc, if_false, Option.some.injEq]
        constructor
        · intro h
          cases h
        · rintro ⟨fx, ir, h1, h2, h3⟩
          subst h1 h2
          exact absurd h3 hfc

theorem validate_loop {R : Type} (fxConfigs : List (FxBsData R))
    (irConfigs : List (IrLgmData R)) (h1 : 0 < irConfigs.length)
    (h2 : fxConfigs.length = irConfigs.length - 1) :
    validate fxConfigs irConfigs =
      forLoop fxConfigs.length (validateStep fxConfigs irConfigs) () := by
  unfold validate
  rw [if_neg (not_not.mpr h1), if_neg (not_not.mpr h2)]

theorem validateStep_error {R : Type} (fxConfigs : List (FxBsData R))
    (irConfigs : List (IrLgmData R)) (i : Nat) (u : Unit) (e : Fault)
    (hi : i < fxConfigs.length) (hlen : fxConfigs.length = irConfigs.length - 1)
    (herr : validateStep fxConfigs irConfigs i u = .error e) : e = .requireFailed := by
  have hr : i + 1 < irConfigs.length := by omega
  simp only [validateStep, List.getElem?_eq_getElem hi, List.getElem?_eq_getElem hr] at herr
  split_ifs at herr with h
  exact (Except.error.inj herr).symm

/-! ## C16: validate -/

/-- C16: `validate` returns normally if and only if `irConfigs_` is non-empty, `fxConfigs_` has
one entry fewer than `irConfigs_`, and for every `i` below the size of `fxConfigs_` the foreign
currency of `fxConfigs_[i]` is the currency of `irConfigs_[i + 1]`; otherwise it throws by a
`QL_REQUIRE`, and no run reads `fxConfigs_` or `irConfigs_` out of bounds. -/
theorem validate_ok_iff {R : Type} (fxConfigs : List (FxBsData R))
    (irConfigs : List (IrLgmData R)) :
    (validate fxConfigs irConfigs = .ok () ↔
        0 < irConfigs.length ∧ fxConfigs.length = irConfigs.length - 1 ∧
          ∀ i, i < fxConfigs.length →
            ∃ fx ir, fxConfigs[i]? = some fx ∧ irConfigs[i + 1]? = some ir ∧
              fx.foreignCcy = ir.ccy) ∧
      (validate fxConfigs irConfigs ≠ .ok () →
        validate fxConfigs irConfigs = .error .requireFailed) := by
  have herr : ∀ e, validate fxConfigs irConfigs = .error e → e = .requireFailed := by
    intro e he
    by_cases h1 : irConfigs.length > 0
    swap
    · simp only [validate, h1, not_false_eq_true, if_true, Except.error.injEq] at he
      exact he.symm
    by_cases h2 : fxConfigs.length = irConfigs.length - 1
    swap
    · simp only [validate, h1, h2, not_true_eq_false, not_false_eq_true, if_true, if_false,
        Except.error.injEq] at he
      exact he.symm
    rw [validate_loop fxConfigs irConfigs h1 h2] at he
    obtain ⟨i, a, hi, _, hstep⟩ := forLoop_error (validateStep fxConfigs irConfigs)
      (fun _ _ => True) fxConfigs.length () trivial (fun _ _ _ _ _ _ => trivial) e he
    exact validateStep_error fxConfigs irConfigs i a e hi h2 hstep
  refine ⟨⟨fun hok => ?_, fun ⟨h1, h2, h3⟩ => ?_⟩, fun hne => ?_⟩
  · simp only [validate] at hok
    split_ifs at hok with h1 h2
    refine ⟨h1, h2, ?_⟩
    exact forLoop_ok_invariant (validateStep fxConfigs irConfigs)
      (fun i _ => ∀ j, j < i → ∃ fx ir, fxConfigs[j]? = some fx ∧ irConfigs[j + 1]? = some ir ∧
        fx.foreignCcy = ir.ccy)
      fxConfigs.length () (fun j hj => absurd hj (Nat.not_lt_zero j))
      (fun i a b _ hP hb j hj => by
        rcases Nat.lt_succ_iff_lt_or_eq.mp hj with hlt | heq
        · exact hP j hlt
        · subst heq
          exact (validateStep_ok_iff fxConfigs irConfigs j a).mp hb) () hok
  · rw [validate_loop fxConfigs irConfigs h1 h2]
    obtain ⟨s', hs', _⟩ := forLoop_invariant (validateStep fxConfigs irConfigs)
      (fun _ _ => True) fxConfigs.length () trivial
      (fun i a hi _ => ⟨(), (validateStep_ok_iff fxConfigs irConfigs i a).mpr (h3 i hi), trivial⟩)
    cases s'
    exact hs'
  · cases hrun : validate fxConfigs irConfigs with
    | ok u => exact absurd hrun hne
    | error e => rw [herr e hrun]

/-- The theorem `validate_ok_iff` on a domestic and one foreign currency, where `validate`
returns, and on an empty `irConfigs_`, where it throws. -/
theorem validate_ok_iff_witness :
    validate [exampleFx "USD"] [exampleIr "EUR" 1, exampleIr "USD" 2] = .ok () ∧
      validate ([] : List (FxBsData Int)) [] = .error .requireFailed :=
  ⟨(validate_ok_iff [exampleFx "USD"] [exampleIr "EUR" 1, exampleIr "USD" 2]).1.mpr
      ⟨by decide, by decide, fun i hi =>
        ⟨exampleFx "USD", exampleIr "USD" 2, by
          have h0 : i = 0 := by simpa using hi
          subst h0
          exact ⟨rfl, rfl, rfl⟩⟩⟩,
    (validate_ok_iff ([] : List (FxBsData Int)) []).2 (fun h => by cases h)⟩

end CrossAssetModelData

/-! # InstantaneousCorrelations: the claims -/

namespace InstantaneousCorrelations

open XvaEngineCG

theorem operatorEq_iff_forall₂ {R : Type} (closeEnough : R → R → Bool) :
    ∀ lhs rhs : List (CorrelationKey × R),
      operatorEq closeEnough lhs rhs = true ↔
        List.Forall₂ (fun a b => a.1 = b.1 ∧ closeEnough a.2 b.2 = true) lhs rhs := by
  intro lhs
  induction lhs with
  | nil =>
    intro rhs
    cases rhs with
    | nil => simp [operatorEq]
    | cons e rest => simp [operatorEq]
  | cons e1 rest1 ih =>
    intro rhs
    cases rhs with
    | nil => simp [operatorEq]
    | cons e2 rest2 =>
      simp only [operatorEq, List.forall₂_cons, ← ih rest2]
      by_cases hk : e1.1 = e2.1
      · by_cases hv : closeEnough e1.2 e2.2 = true
        · simp [hk, hv]
        · simp [hk, hv]
      · simp [hk]

theorem pairwise_asymm_nodup {K : Type} (lt : K → K → Prop) (hasymm : ∀ a b, lt a b → ¬ lt b a)
    (l : List K) (h : l.Pairwise lt) : l.Nodup :=
  List.Pairwise.imp (by
    intro a b hab heq
    subst heq
    exact hasymm a a hab hab) h

theorem pairwise_asymm_ext {K : Type} (lt : K → K → Prop) (hasymm : ∀ a b, lt a b → ¬ lt b a)
    (l1 l2 : List K) (h1 : l1.Pairwise lt) (h2 : l2.Pairwise lt)
    (hmem : ∀ k, k ∈ l1 ↔ k ∈ l2) : l1 = l2 := by
  haveI : IsAntisymm K lt := ⟨fun a b hab hba => absurd hba (hasymm a b hab)⟩
  have hperm : l1.Perm l2 :=
    (List.perm_ext_iff_of_nodup (pairwise_asymm_nodup lt hasymm l1 h1)
      (pairwise_asymm_nodup lt hasymm l2 h2)).mpr hmem
  exact List.eq_of_perm_of_sorted hperm h1 h2

theorem lookup_some_mem_keys {K R : Type} [BEq K] [LawfulBEq K] (l : List (K × R)) (k : K) (v : R)
    (h : l.lookup k = some v) : k ∈ l.map Prod.fst := by
  induction l with
  | nil => simp [List.lookup] at h
  | cons e rest ih =>
    obtain ⟨k', v'⟩ := e
    by_cases hk : k = k'
    · simp [hk]
    · have hbeq : (k == k') = false := by simpa using hk
      simp only [List.lookup, hbeq] at h
      exact List.mem_cons_of_mem _ (ih h)

theorem forall₂_iff_lookup {K R : Type} [BEq K] [LawfulBEq K] (rel : R → R → Prop) :
    ∀ lhs rhs : List (K × R), (lhs.map Prod.fst).Nodup → (rhs.map Prod.fst).Nodup →
      (List.Forall₂ (fun a b => a.1 = b.1 ∧ rel a.2 b.2) lhs rhs ↔
        lhs.map Prod.fst = rhs.map Prod.fst ∧
          ∀ k v1 v2, lhs.lookup k = some v1 → rhs.lookup k = some v2 → rel v1 v2) := by
  intro lhs
  induction lhs with
  | nil =>
    intro rhs _ _
    cases rhs with
    | nil => simp
    | cons e rest => simp
  | cons e1 rest1 ih =>
    intro rhs hn1 hn2
    cases rhs with
    | nil => simp
    | cons e2 rest2 =>
      obtain ⟨k1, v1⟩ := e1
      obtain ⟨k2, v2⟩ := e2
      simp only [List.map_cons, List.nodup_cons] at hn1 hn2
      simp only [List.forall₂_cons, List.map_cons, List.cons.injEq, ih rest2 hn1.2 hn2.2]
      constructor
      · rintro ⟨⟨hk, hv⟩, hkeys, hvals⟩
        subst hk
        refine ⟨⟨rfl, hkeys⟩, ?_⟩
        intro k a b ha hb
        by_cases hkk : k = k1
        · subst hkk
          simp only [List.lookup, beq_self_eq_true, Option.some.injEq] at ha hb
          subst ha hb
          exact hv
        · have hbeq : (k == k1) = false := by simpa using hkk
          simp only [List.lookup, hbeq] at ha hb
          exact hvals k a b ha hb
      · rintro ⟨⟨hk, hkeys⟩, hvals⟩
        subst hk
        refine ⟨⟨rfl, ?_⟩, hkeys, ?_⟩
        · exact hvals k1 v1 v2 (by simp [List.lookup]) (by simp [List.lookup])
        · intro k a b ha hb
          have hmem : k ∈ rest1.map Prod.fst := lookup_some_mem_keys rest1 k a ha
          have hkk : k ≠ k1 := fun h => hn1.1 (h ▸ hmem)
          have hbeq : (k == k1) = false := by simpa using hkk
          exact hvals k a b (by simp [List.lookup, hbeq, ha]) (by simp [List.lookup, hbeq, hb])

/-! ## C18: comparison by value -/

/-- C18: for two correlation maps, each iterated in the strict order of its keys,
`operator==` returns true if and only if the two maps have the same set of keys and for every
key the values of the two quotes are `close_enough`; `operator!=` returns the negation of
`operator==`. -/
theorem operatorEq_iff_same_keys_close_values {R : Type} (closeEnough : R → R → Bool)
    (lt : CorrelationKey → CorrelationKey → Prop) (hasymm : ∀ a b, lt a b → ¬ lt b a)
    (lhs rhs : List (CorrelationKey × R))
    (hl : (lhs.map Prod.fst).Pairwise lt) (hr : (rhs.map Prod.fst).Pairwise lt) :
    (operatorEq closeEnough lhs rhs = true ↔
        (∀ k, k ∈ lhs.map Prod.fst ↔ k ∈ rhs.map Prod.fst) ∧
          ∀ k v1 v2, lhs.lookup k = some v1 → rhs.lookup k = some v2 →
            closeEnough v1 v2 = true) ∧
      operatorNe closeEnough lhs rhs = !(operatorEq closeEnough lhs rhs) := by
  refine ⟨?_, rfl⟩
  rw [operatorEq_iff_forall₂, forall₂_iff_lookup (fun v1 v2 => closeEnough v1 v2 = true) lhs rhs
    (pairwise_asymm_nodup lt hasymm _ hl) (pairwise_asymm_nodup lt hasymm _ hr)]
  constructor
  · rintro ⟨hkeys, hvals⟩
    exact ⟨fun k => by rw [hkeys], hvals⟩
  · rintro ⟨hkeys, hvals⟩
    exact ⟨pairwise_asymm_ext lt hasymm _ _ hl hr hkeys, hvals⟩

/-- The theorem `operatorEq_iff_same_keys_close_values` on the example map and a second map
with the same keys and every value one unit larger, under the order of the example keys. -/
theorem operatorEq_iff_same_keys_close_values_witness :
    ((exampleCorrelations.map Prod.fst).Pairwise (fun a b => exampleLt a b = true)) ∧
      (((exampleCorrelations.map (fun e => (e.1, e.2 + 1))).map Prod.fst).Pairwise
        (fun a b => exampleLt a b = true)) ∧
      ((operatorEq exampleCloseEnough exampleCorrelations
            (exampleCorrelations.map (fun e => (e.1, e.2 + 1))) = true ↔
          (∀ k, k ∈ exampleCorrelations.map Prod.fst ↔
            k ∈ (exampleCorrelations.map (fun e => (e.1, e.2 + 1))).map Prod.fst) ∧
            ∀ k v1 v2, exampleCorrelations.lookup k = some v1 →
              (exampleCorrelations.map (fun e => (e.1, e.2 + 1))).lookup k = some v2 →
              exampleCloseEnough v1 v2 = true) ∧
        operatorNe exampleCloseEnough exampleCorrelations
            (exampleCorrelations.map (fun e => (e.1, e.2 + 1))) =
          !(operatorEq exampleCloseEnough exampleCorrelations
            (exampleCorrelations.map (fun e => (e.1, e.2 + 1))))) :=
  have hl : (exampleCorrelations.map Prod.fst).Pairwise (fun a b => exampleLt a b = true) := by
    decide
  have hr : ((exampleCorrelations.map (fun e => (e.1, e.2 + 1))).map Prod.fst).Pairwise
      (fun a b => exampleLt a b = true) := by
    decide
  ⟨hl, hr, operatorEq_iff_same_keys_close_values exampleCloseEnough
    (fun a b => exampleLt a b = true)
    (fun a b hab hba => by
      simp only [exampleLt, decide_eq_true_eq] at hab hba
      omega)
    exampleCorrelations (exampleCorrelations.map (fun e => (e.1, e.2 + 1))) hl hr⟩

end InstantaneousCorrelations

/-! # IterativeBootstrap: the claim -/

namespace IterativeBootstrap

open XvaEngineCG

end IterativeBootstrap
